import Mathlib

/-!
# signjson: a verification development

A shallow embedding of `signjson/main.cpp` (the command-line wrapper around
`EmbeddedJSONSignature::signJson`) together with the properties of its batch
loop, its file helpers and its exit code.

`std::string` is `String`, one `Char` for one byte.  The C and C++ runtimes are not
part of the program, so what `fopen`/`fseek`/`ftell`/`fread`/`fwrite`/`fclose` answer,
and whether the allocation of `result.resize(size)` succeeds, is an input of the model:
`ReadFile` and `WriteFile` record the answers given during one call of
`loadFileToString` and `saveStringToFile`, and `Env` supplies them for the entry at
each position of the file list.  The contents of the files are a `Disk`, which only
`saveStringToFile` changes.  Calls and output are recorded in a trace of `Event`s, in
program order.  An exception that leaves `main` ends the run: `main` returns nothing.
The one allocation whose size the input chooses, `result.resize(size)`, can throw; the
copies of file names and of the key are taken to succeed.
-/

namespace SignJson

/-! ## Observable behaviour -/

/-- One observable step of a run, in program order. -/
inductive Event where
  /-- The call `loadFileToString(filepath)`. -/
  | load (filepath : String)
  /-- The call `signJson(originalJson, b64_secretKey)`. -/
  | sign (originalJson b64_secretKey : String)
  /-- The call `saveStringToFile(str, filepath)`, which opens `filepath` for writing. -/
  | save (str filepath : String)
  /-- One line written to `std::cerr`. -/
  | cerr (line : String)
  /-- One line written to `std::cout`. -/
  | cout (line : String)
  /-- An exception leaves `main`: `std::terminate` ends the process. -/
  | terminate
  deriving DecidableEq, Repr

/-- The contents of the files: the bytes at each path, `none` where there is no file. -/
def Disk : Type := String → Option String

/-- The disk after the file at `filepath` has received `content`. -/
def Disk.write (disk : Disk) (filepath content : String) : Disk :=
  fun path => if path = filepath then some content else disk path

/-! ## The runtime as seen by the two file helpers -/

/-- The answers of the runtime during one call of `loadFileToString`. -/
structure ReadFile where
  /-- The value `some e` when `fopen(path, "rb")` returns `NULL` with `errno = e`. -/
  fopenErrno : Option Int
  /-- Return value of `fseek(fp, 0, SEEK_END)`. -/
  fseekEnd : Int
  /-- Return value of `ftell(fp)`. -/
  ftell : Int
  /-- Return value of `fseek(fp, 0, SEEK_SET)`. -/
  fseekSet : Int
  /-- Whether the allocation made by `result.resize(size)` fails (`std::bad_alloc`). -/
  badAlloc : Bool
  /-- The bytes the stream delivers; `fread(buf, 1, n, fp)` stores at most `n` of them. -/
  fread : String
  deriving DecidableEq, Repr

/-- The answers of the runtime during one call of `saveStringToFile`. -/
structure WriteFile where
  /-- Whether `fopen(path, "wb")` returns a non-null stream. -/
  fopenOk : Bool
  /-- Return value of `fwrite(str.data(), 1, str.size(), fp)`. -/
  fwrite : Nat
  /-- Return value of `fclose(fp)`. -/
  fclose : Int
  /-- How many bytes of the string are in the file after a short write or a failed
  close. -/
  flushed : Nat
  deriving DecidableEq, Repr

/-- The exceptions of `std::string::resize`. -/
inductive Thrown where
  /-- The exception `std::length_error`: the requested size is above `max_size()`. -/
  | length_error
  /-- The exception `std::bad_alloc`: the allocation failed. -/
  | bad_alloc
  deriving DecidableEq, Repr

/-- The call `fread(buf, 1, size, fp)`: the first `size` bytes the stream delivers. -/
def freadBytes (r : ReadFile) (size : Nat) : String :=
  String.mk (r.fread.data.take size)

/-- The function `loadFileToString`: the returned string and the lines it writes to
`std::cerr`, or the exception `result.resize(size)` throws; `max_size` is the value of
`std::string::max_size()`. -/
def loadFileToString (max_size : Nat) (filepath : String) (r : ReadFile) :
    Except Thrown (String × List String) :=
  match r.fopenErrno with
  | some error =>
    Except.ok ("", ["Failed to open file (" ++ toString error ++ "): " ++ filepath])
  | none =>
    if r.fseekEnd < 0 then Except.ok ("", ["fseek[SEEK_END] failed"])
    else
      let size := r.ftell
      if size ≤ 0 then Except.ok ("", ["std::ftell returned size: " ++ toString size])
      else if r.fseekSet < 0 then Except.ok ("", ["fseek[SEEK_SET] failed"])
      else if max_size < size.toNat then Except.error Thrown.length_error
      else if r.badAlloc then Except.error Thrown.bad_alloc
      else Except.ok (freadBytes r size.toNat, [])

/-- The function `saveStringToFile`: whether the string was written and the stream
closed, and the disk afterwards.  A failed `fopen` leaves the disk as it is; a stream
opened with `"wb"` replaces the file, which holds the whole string after a complete
write and a successful close, and a part of it otherwise. -/
def saveStringToFile (str : String) (filepath : String) (w : WriteFile) (disk : Disk) :
    Bool × Disk :=
  if !w.fopenOk then (false, disk)
  else
    let size_written := w.fwrite
    if size_written ≠ str.length then
      (false, disk.write filepath (String.mk (str.data.take w.flushed)))
    else if w.fclose ≠ 0 then
      (false, disk.write filepath (String.mk (str.data.take w.flushed)))
    else (true, disk.write filepath str)

/-! ## The program -/

/-- What `parser.ParseCLI(argc, argv)` does: it throws, or it fills the flags. -/
inductive ParseCLI where
  /-- The exception `args::Help`. -/
  | help
  /-- The exception `args::ParseError`, with its `what()`. -/
  | parseError (what : String)
  /-- The exception `args::ValidationError`, with its `what()`. -/
  | validationError (what : String)
  /-- Normal return: the value of `-k` when matched, the positional list when matched. -/
  | parsed (secretkey : Option String) (jsonfiles : Option (List String))
  deriving DecidableEq, Repr

/-- Everything `main` consults outside its own code. -/
structure Env where
  /-- The text `operator<<` prints for the argument parser. -/
  usage : String
  /-- The value of `std::string::max_size()`. -/
  max_size : Nat
  /-- The runtime during the load of the entry at a position of the file list. -/
  readFile : Nat → String → ReadFile
  /-- The library call `EmbeddedJSONSignature::signJson`: the signed document, or the
  `what()` of the `std::exception` it throws (the exceptions `main` catches). -/
  signJson : String → String → Except String String
  /-- The runtime during the save of a string for the entry at a position. -/
  writeFile : Nat → String → String → WriteFile

/-- The variables the loop updates, the trace and the disk so far, and whether an
exception has left the loop. -/
structure LoopState where
  failedAFile : Bool
  trace : List Event
  disk : Disk
  terminated : Bool

/-- The body of the `for` loop of `main`, for the entry `filename` at position `i`.
The call of `loadFileToString` is outside the `try`: what it throws leaves `main`. -/
def loopBody (env : Env) (b64_secretKey : String) (i : Nat) (filename : String)
    (st : LoopState) : LoopState :=
  match loadFileToString env.max_size filename (env.readFile i filename) with
  | Except.error _ =>
    { failedAFile := st.failedAFile
      trace := st.trace ++ [Event.load filename, Event.terminate]
      disk := st.disk
      terminated := true }
  | Except.ok loaded =>
    let originalJson := loaded.1
    let t0 := st.trace ++ Event.load filename :: loaded.2.map Event.cerr
    if originalJson = "" then
      { failedAFile := true
        trace := t0 ++
          [Event.cerr ("File is empty / does not exist / could not be loaded: " ++ filename)]
        disk := st.disk
        terminated := false }
    else
      let t1 := t0 ++ [Event.sign originalJson b64_secretKey]
      match env.signJson originalJson b64_secretKey with
      | Except.error what =>
        { failedAFile := true
          trace := t1 ++
            [Event.cerr ("Failed to sign file \"" ++ filename ++ "\" with error: " ++ what)]
          disk := st.disk
          terminated := false }
      | Except.ok signedJson =>
        let t2 := t1 ++ [Event.save signedJson filename]
        let saved :=
          saveStringToFile signedJson filename (env.writeFile i filename signedJson) st.disk
        if !saved.1 then
          { failedAFile := true
            trace := t2 ++ [Event.cerr ("Failed to save signed file: " ++ filename)]
            disk := saved.2
            terminated := false }
        else
          { failedAFile := st.failedAFile
            trace := t2 ++ [Event.cout ("Signed file: " ++ filename)]
            disk := saved.2
            terminated := false }

/-- The `for` loop of `main` over the entries from position `i` on; it ends with the
list, or with the entry at which an exception leaves it. -/
def forLoop (env : Env) (b64_secretKey : String) : Nat → List String → LoopState → LoopState
  | _, [], st => st
  | i, filename :: rest, st =>
    let next := loopBody env b64_secretKey i filename st
    if next.terminated then next else forLoop env b64_secretKey (i + 1) rest next

/-- The result of a run: the value `main` returns (`none` when an exception ends the
process and `main` does not return), what it did, and the disk at the end. -/
structure Run where
  exitCode : Option Int
  trace : List Event
  disk : Disk

/-- The function `main`, after `ParseCLI` has thrown or returned, on a disk. -/
def main (env : Env) (disk : Disk) : ParseCLI → Run
  | ParseCLI.help => { exitCode := some 0, trace := [Event.cout env.usage], disk := disk }
  | ParseCLI.parseError what =>
    { exitCode := some 1, trace := [Event.cerr what, Event.cerr env.usage], disk := disk }
  | ParseCLI.validationError what =>
    { exitCode := some 1, trace := [Event.cerr what, Event.cerr env.usage], disk := disk }
  | ParseCLI.parsed none _ =>
    { exitCode := some 1
      trace := [Event.cerr "Missing required secretkey parameter"]
      disk := disk }
  | ParseCLI.parsed (some b64_secretKey) jsonfiles =>
    let st0 : LoopState :=
      { failedAFile := false, trace := [], disk := disk, terminated := false }
    let st :=
      match jsonfiles with
      | none => st0
      | some files => forLoop env b64_secretKey 0 files st0
    { exitCode := if st.terminated then none else some (if st.failedAFile then 1 else 0)
      trace := st.trace
      disk := st.disk }

/-! ## Vocabulary of the properties -/

/-- The list `args::get(jsonfiles)`: empty when no positional argument was matched. -/
def fileList (jsonfiles : Option (List String)) : List String :=
  jsonfiles.getD []

/-- The run of `main` when the arguments parse and `-k b64_secretKey` is supplied. -/
def runBatch (env : Env) (b64_secretKey : String) (disk : Disk)
    (jsonfiles : Option (List String)) : Run :=
  main env disk (ParseCLI.parsed (some b64_secretKey) jsonfiles)

/-- What the call `loadFileToString(filename)` does for the entry at position `i`. -/
def Env.load (env : Env) (i : Nat) (filename : String) :
    Except Thrown (String × List String) :=
  loadFileToString env.max_size filename (env.readFile i filename)

/-- Whether the load of the entry at position `i` returns. -/
def Env.loadReturns (env : Env) (i : Nat) (filename : String) : Bool :=
  match env.load i filename with
  | Except.ok _ => true
  | Except.error _ => false

/-- Whether the loads of all the entries of `files`, at the positions from `i` on,
return. -/
def Env.loadsReturn (env : Env) : Nat → List String → Bool
  | _, [] => true
  | i, filename :: rest => env.loadReturns i filename && env.loadsReturn (i + 1) rest

/-- Whether `main` reaches the entry at position `i` of `files`: the loads of all the
entries before it return. -/
def Env.reaches (env : Env) (files : List String) (i : Nat) : Bool :=
  env.loadsReturn 0 (files.take i)

/-- The loaded content of the entry at position `i`: the string the call of
`loadFileToString` made by `main` returns; `none` when `main` does not reach the entry
or the call throws. -/
def Env.loaded (env : Env) (files : List String) (i : Nat) (filename : String) :
    Option String :=
  if env.reaches files i then
    match env.load i filename with
    | Except.ok loaded => some loaded.1
    | Except.error _ => none
  else none

/-- The string `signJson` returns for an entry: its loaded content is non-empty and
`signJson` does not throw. -/
def Env.signed (env : Env) (b64_secretKey : String) (files : List String) (i : Nat)
    (filename : String) : Option String :=
  match env.loaded files i filename with
  | some originalJson =>
    if originalJson = "" then none
    else
      match env.signJson originalJson b64_secretKey with
      | Except.ok signedJson => some signedJson
      | Except.error _ => none
  | none => none

/-- The value `saveStringToFile` returns; it does not depend on the disk. -/
def saveReturns (str filepath : String) (w : WriteFile) : Bool :=
  (saveStringToFile str filepath w (fun _ => none)).1

/-- The string saved for an entry of which the load, the signing and the save all
succeeded. -/
def Env.saved (env : Env) (b64_secretKey : String) (files : List String) (i : Nat)
    (filename : String) : Option String :=
  match env.signed b64_secretKey files i filename with
  | some signedJson =>
    if saveReturns signedJson filename (env.writeFile i filename signedJson) then
      some signedJson
    else none
  | none => none

/-- A file fails when its loaded content is empty, or `signJson` throws for it, or
`saveStringToFile` returns false for it. -/
def FileFails (env : Env) (b64_secretKey : String) (files : List String) (i : Nat)
    (filename : String) : Prop :=
  ∃ originalJson, env.loaded files i filename = some originalJson ∧
    (originalJson = "" ∨
     (∃ what, env.signJson originalJson b64_secretKey = Except.error what) ∨
     (∃ signedJson, env.signJson originalJson b64_secretKey = Except.ok signedJson ∧
       saveReturns signedJson filename (env.writeFile i filename signedJson) = false))

/-- A load that stops early: the file cannot be opened, a seek fails, or the reported
size is not positive. -/
def ReadFile.Stops (r : ReadFile) : Prop :=
  r.fopenErrno ≠ none ∨ r.fseekEnd < 0 ∨ r.ftell ≤ 0 ∨ r.fseekSet < 0

/-- A zero-length file: it opens, the seek to the end succeeds and `ftell` reports 0. -/
def ReadFile.ZeroLength (r : ReadFile) : Prop :=
  r.fopenErrno = none ∧ 0 ≤ r.fseekEnd ∧ r.ftell = 0

/-- The file name of a `loadFileToString` call. -/
def Event.loadOf : Event → Option String
  | Event.load filepath => some filepath
  | _ => none

/-- The arguments of a `signJson` call. -/
def Event.signOf : Event → Option (String × String)
  | Event.sign originalJson b64_secretKey => some (originalJson, b64_secretKey)
  | _ => none

/-- The arguments of a `saveStringToFile` call. -/
def Event.saveOf : Event → Option (String × String)
  | Event.save str filepath => some (str, filepath)
  | _ => none

/-- The line of a write to `std::cout`. -/
def Event.coutOf : Event → Option String
  | Event.cout line => some line
  | _ => none

/-- A message names a file when the file name occurs in it. -/
def Names (line filename : String) : Prop :=
  ∃ before after : String, line = before ++ filename ++ after

/-- The loop body started from the initial loop state on a disk. -/
def step (env : Env) (b64_secretKey : String) (i : Nat) (filename : String) (disk : Disk) :
    LoopState :=
  loopBody env b64_secretKey i filename
    { failedAFile := false, trace := [], disk := disk, terminated := false }

/-- The trace of the loop body for one entry; it does not depend on the disk. -/
def stepTrace (env : Env) (b64_secretKey : String) (i : Nat) (filename : String) :
    List Event :=
  (step env b64_secretKey i filename (fun _ => none)).trace

/-- The entries of the file list, with their positions, that `main` reaches. -/
def Env.reached (env : Env) (files : List String) : List (Nat × String) :=
  (files.enumFrom 0).filter (fun p => env.reaches files p.1)

/-! ## An environment for examples -/

/-- The empty disk. -/
def noFiles : Disk := fun _ => none

/-- An environment for examples: `a.json` holds the two bytes `{}`, `empty.json` is a
zero-length file, `full.json` holds `[]` but cannot be written completely, `adir` is a
directory, for which `ftell` reports `LONG_MAX`, and no other file can be opened
(`errno` 2); signing appends the key and throws on an empty key. -/
def exampleEnv : Env :=
  { usage := "usage"
    max_size := 4611686018427387903
    readFile := fun _ filename =>
      if filename = "a.json" then
        { fopenErrno := none, fseekEnd := 0, ftell := 2, fseekSet := 0, badAlloc := false,
          fread := "\x7b\x7d" }
      else if filename = "full.json" then
        { fopenErrno := none, fseekEnd := 0, ftell := 2, fseekSet := 0, badAlloc := false,
          fread := "[]" }
      else if filename = "empty.json" then
        { fopenErrno := none, fseekEnd := 0, ftell := 0, fseekSet := 0, badAlloc := false,
          fread := "" }
      else if filename = "adir" then
        { fopenErrno := none, fseekEnd := 0, ftell := 9223372036854775807, fseekSet := 0,
          badAlloc := false, fread := "" }
      else
        { fopenErrno := some 2, fseekEnd := 0, ftell := 0, fseekSet := 0, badAlloc := false,
          fread := "" }
    signJson := fun originalJson b64_secretKey =>
      if b64_secretKey = "" then Except.error "bad key"
      else Except.ok (originalJson ++ b64_secretKey)
    writeFile := fun _ filename str =>
      if filename = "full.json" then
        { fopenOk := true, fwrite := 1, fclose := 0, flushed := 1 }
      else { fopenOk := true, fwrite := str.length, fclose := 0, flushed := 0 } }

/-- The file list of the examples. -/
def exampleFiles : List String :=
  ["a.json", "empty.json", "missing.json", "full.json"]

/-- A file list with a directory before a file. -/
def directoryFirst : List String :=
  ["adir", "a.json"]

end SignJson

/-! ## The signing core, modelled from the specification

`EmbeddedJSONSignature` is not among the sources: `main.cpp` only calls
`signJson(document, base64SecretKey)`.  The definitions below follow sections 3 and 4 of
the specification.  What the specification leaves open (the reserved key, the texts of
numbers and strings, the MAC, the key check, the document adapter) is a field of `Scheme`.
-/

namespace Core

/-- Modelled from the spec: the `number` of a StructuredValue, which the sources do not
define.  A finite number is kept as the decimal literal `mantissa * 10 ^ exponent`, so
that `1.0` (`10 * 10 ^ -1`) and `1` are two spellings of one value; `nan` and `infinity`
are the values the canonical form cannot represent. -/
inductive Number where
  | decimal (mantissa : Int) (exponent : Int)
  | nan
  | infinity (negative : Bool)
  deriving DecidableEq, Repr

/-- Modelled from the spec: StructuredValue (section 3), absent from the sources: one of
null, boolean, number, string, ordered-key mapping of string to StructuredValue, ordered
sequence of StructuredValue. -/
inductive StructuredValue where
  | null
  | boolean (b : Bool)
  | number (n : Number)
  | string (s : String)
  | mapping (entries : List (String × StructuredValue))
  | sequence (items : List StructuredValue)
  deriving Repr

/-- Modelled from the spec: the error taxonomy of section 7, absent from the sources. -/
inductive CoreError where
  | parseError
  | encodingError
  | alreadySignedError
  | missingSignatureError
  | malformedSignatureError
  | unsupportedAlgorithmError
  | keyFormatError
  | signatureMismatchError
  deriving DecidableEq, Repr

/-- Modelled from the spec: SignatureBlock (section 3), absent from the sources:
version, algorithm identifier, optional key identifier, signature bytes (kept in the
base64 text under which the block stores them). -/
structure SignatureBlock where
  version : Int
  algorithm : String
  keyId : Option String
  signature : String
  deriving DecidableEq, Repr

/-- Modelled from the spec: the protocol decisions the specification leaves to the
implementer (section 9) and the external document adapter (section 2), none of which is
in the sources.  `Doc` is the type of serialized documents. -/
structure Scheme (Doc : Type) where
  /-- The fixed top-level reserved key name. -/
  reservedKey : String
  /-- The current protocol version. -/
  version : Int
  /-- The identifier of the configured algorithm. -/
  algorithm : String
  /-- The canonical text of a finite number, from its normalized mantissa and exponent. -/
  numberText : Int → Int → String
  /-- The canonical escaped text of a string. -/
  stringText : String → String
  /-- The length/encoding check of a secret key. -/
  keyFormatOk : String → Bool
  /-- The signature `MAC_or_Sign(canonicalPayload, secretKey)`. -/
  mac : String → String → String
  /-- The error of `embed` on a value that is not a mapping (the specification names none). -/
  notAMapping : CoreError
  /-- Document adapter: parsing of input bytes, `none` on malformed input. -/
  parse : Doc → Option StructuredValue
  /-- Document adapter: serialization of a structured value. -/
  serialize : StructuredValue → Doc

/-! ### Canonical encoder (section 4.1) -/

/-- Modelled from the spec: the byte-wise lexicographic order of section 4.1, on two byte
sequences; the encoder is absent from the sources. -/
def bytesLe : List Nat → List Nat → Bool
  | [], _ => true
  | _ :: _, [] => false
  | a :: as, b :: bs => decide (a < b) || (a == b && bytesLe as bs)

/-- Modelled from the spec: the fixed total order on keys, byte-wise lexicographic on
the key text. -/
def keyLe (a b : String) : Bool :=
  bytesLe (a.data.map Char.toNat) (b.data.map Char.toNat)

/-- Modelled from the spec: "no trailing zeros" (section 4.1), the encoder being absent from
the sources: removes trailing decimal zeros of a non-zero mantissa, at most `fuel` of them. -/
def stripZeros : Nat → Int → Int → Int × Int
  | 0, m, e => (m, e)
  | fuel + 1, m, e => if m % 10 = 0 then stripZeros fuel (m / 10) (e + 1) else (m, e)

/-- Modelled from the spec: the single canonical form of a decimal literal: no trailing
zeros in the mantissa, and zero written as `0 * 10 ^ 0`. -/
def normalize (m e : Int) : Int × Int :=
  if m = 0 then (0, 0) else stripZeros m.natAbs m e

/-- Modelled from the spec: "the same numeric value" (section 4.1): two numbers denote one
value, whatever their spelling. -/
def Number.SameValue : Number → Number → Prop
  | Number.decimal m₁ e₁, Number.decimal m₂ e₂ =>
    m₁ * 10 ^ (e₁ - min e₁ e₂).toNat = m₂ * 10 ^ (e₂ - min e₁ e₂).toNat
  | Number.nan, Number.nan => True
  | Number.infinity a, Number.infinity b => a = b
  | _, _ => False

instance Number.decidableSameValue (a b : Number) : Decidable (a.SameValue b) := by
  cases a <;> cases b <;> unfold Number.SameValue <;> infer_instance

/-- Modelled from the spec: the canonical text of a number (section 4.1), absent from the
sources; non-finite numbers have none. -/
def encodeNumber {Doc : Type} (S : Scheme Doc) : Number → String
  | Number.decimal m e => S.numberText (normalize m e).1 (normalize m e).2
  | _ => ""

mutual
/-- Modelled from the spec: whether the canonical form can represent the value (section
4.1, `EncodingError`), absent from the sources: no NaN or Infinity inside. -/
def representable : StructuredValue → Bool
  | StructuredValue.number (Number.decimal _ _) => true
  | StructuredValue.number _ => false
  | StructuredValue.mapping entries => representableEntries entries
  | StructuredValue.sequence items => representableItems items
  | _ => true
/-- All the values of the entries are representable. -/
def representableEntries : List (String × StructuredValue) → Bool
  | [] => true
  | (_, v) :: rest => representable v && representableEntries rest
/-- All the items are representable. -/
def representableItems : List StructuredValue → Bool
  | [] => true
  | v :: rest => representable v && representableItems rest
end

/-- Modelled from the spec: the order in which the encoder, absent from the sources,
arranges the entries of a mapping: by key. -/
def EntryLe (a b : String × String) : Prop := keyLe a.1 b.1 = true

instance EntryLe.decidable : DecidableRel EntryLe := fun a b =>
  inferInstanceAs (Decidable (keyLe a.1 b.1 = true))

/-- The strict order of encoded entries with distinct keys. -/
def EntryLt (a b : String × String) : Prop := keyLe a.1 b.1 = true ∧ a.1 ≠ b.1

/-- Modelled from the spec: the entries of a mapping sorted by key in the fixed order
(section 4.1), the encoder being absent from the sources. -/
def sortEntries (entries : List (String × String)) : List (String × String) :=
  List.insertionSort EntryLe entries

mutual
/-- Modelled from the spec: the canonical bytes of a value (section 4.1): keys sorted,
numbers and strings in their canonical text, no whitespace between tokens. -/
def encode {Doc : Type} (S : Scheme Doc) : StructuredValue → String
  | StructuredValue.null => "null"
  | StructuredValue.boolean b => if b then "true" else "false"
  | StructuredValue.number n => encodeNumber S n
  | StructuredValue.string s => S.stringText s
  | StructuredValue.mapping entries =>
    "\x7b" ++ ",".intercalate
      ((sortEntries (encodeEntries S entries)).map (fun p => S.stringText p.1 ++ ":" ++ p.2))
      ++ "\x7d"
  | StructuredValue.sequence items => "[" ++ ",".intercalate (encodeItems S items) ++ "]"
/-- The entries of a mapping with their values encoded, in the original order. -/
def encodeEntries {Doc : Type} (S : Scheme Doc) :
    List (String × StructuredValue) → List (String × String)
  | [] => []
  | (k, v) :: rest => (k, encode S v) :: encodeEntries S rest
/-- The items of a sequence encoded, in order. -/
def encodeItems {Doc : Type} (S : Scheme Doc) : List StructuredValue → List String
  | [] => []
  | v :: rest => encode S v :: encodeItems S rest
end

/-- Modelled from the spec: whether the value carries the reserved key at its top level
(sections 3 and 4.2); the codec is absent from the sources. -/
def carriesReservedKey {Doc : Type} (S : Scheme Doc) : StructuredValue → Bool
  | StructuredValue.mapping entries => entries.any (fun p => p.1 == S.reservedKey)
  | _ => false

/-- Modelled from the spec: the value without the reserved key at its top level (section
4.1, last rule); the encoder is absent from the sources. -/
def removeReservedKey {Doc : Type} (S : Scheme Doc) : StructuredValue → StructuredValue
  | StructuredValue.mapping entries =>
    StructuredValue.mapping (entries.filter (fun p => !(p.1 == S.reservedKey)))
  | v => v

/-- Modelled from the spec: `canonicalize` (section 4.1): the reserved key is removed
first; a value the canonical form cannot represent fails with `EncodingError`. -/
def canonicalize {Doc : Type} (S : Scheme Doc) (value : StructuredValue) :
    Except CoreError String :=
  let v := removeReservedKey S value
  if representable v then Except.ok (encode S v) else Except.error CoreError.encodingError

/-! ### Signature block codec (section 4.2) -/

/-- Modelled from the spec: the serialized shape of a block (section 6), absent from the
sources:
`{ "version": <int>, "algorithm": "<string-id>", "keyId": "<string, optional>",
"signature": "<base64>" }`. -/
def blockValue (block : SignatureBlock) : StructuredValue :=
  StructuredValue.mapping
    ([("version", StructuredValue.number (Number.decimal block.version 0)),
      ("algorithm", StructuredValue.string block.algorithm)] ++
     (match block.keyId with
      | some id => [("keyId", StructuredValue.string id)]
      | none => []) ++
     [("signature", StructuredValue.string block.signature)])

/-- Modelled from the spec: the reading of a block from its serialized shape (section
4.2), absent from the sources; anything else, or another version or algorithm than the
configured ones, is a malformed signature. -/
def decodeBlock {Doc : Type} (S : Scheme Doc) : StructuredValue → Except CoreError SignatureBlock
  | StructuredValue.mapping fields =>
    match fields.lookup "version", fields.lookup "algorithm", fields.lookup "signature" with
    | some (StructuredValue.number n), some (StructuredValue.string alg),
        some (StructuredValue.string sig) =>
      if n.SameValue (Number.decimal S.version 0) ∧ alg = S.algorithm then
        match fields.lookup "keyId" with
        | none =>
          Except.ok { version := S.version, algorithm := alg, keyId := none, signature := sig }
        | some (StructuredValue.string id) =>
          Except.ok { version := S.version, algorithm := alg, keyId := some id, signature := sig }
        | some _ => Except.error CoreError.malformedSignatureError
      else Except.error CoreError.malformedSignatureError
    | _, _, _ => Except.error CoreError.malformedSignatureError
  | _ => Except.error CoreError.malformedSignatureError

/-- Modelled from the spec: `extract` (section 4.2), absent from the sources: the block
under the reserved key and the value without it; `MissingSignatureError` when the
reserved key is absent, `MalformedSignatureError` when the block has not the shape. -/
def extract {Doc : Type} (S : Scheme Doc) (value : StructuredValue) :
    Except CoreError (SignatureBlock × StructuredValue) :=
  match value with
  | StructuredValue.mapping entries =>
    match entries.lookup S.reservedKey with
    | none => Except.error CoreError.missingSignatureError
    | some blockV =>
      match decodeBlock S blockV with
      | Except.error e => Except.error e
      | Except.ok block => Except.ok (block, removeReservedKey S value)
  | _ => Except.error CoreError.missingSignatureError

/-- Modelled from the spec: `embed` (section 4.2), absent from the sources: the block is
put under the reserved key after the document's own fields; `AlreadySignedError` when the
reserved key already exists in the target value. -/
def embed {Doc : Type} (S : Scheme Doc) (value : StructuredValue) (block : SignatureBlock) :
    Except CoreError StructuredValue :=
  match value with
  | StructuredValue.mapping entries =>
    if carriesReservedKey S value then Except.error CoreError.alreadySignedError
    else Except.ok (StructuredValue.mapping (entries ++ [(S.reservedKey, blockValue block)]))
  | _ => Except.error S.notAMapping

/-! ### Signing and verification engines (sections 4.3 and 4.4) -/

/-- Modelled from the spec: `sign` (section 4.3), the `signJson` that `main.cpp` calls and
the sources do not contain.  The steps are those of the specification, in its order:
parse; reject a document that already carries a signature block; canonicalize; compute
the signature with the secret key; construct the block; embed it into the original
value; serialize. -/
def sign {Doc : Type} (S : Scheme Doc) (document : Doc) (secretKey : String) :
    Except CoreError Doc :=
  match S.parse document with
  | none => Except.error CoreError.parseError
  | some value =>
    if carriesReservedKey S value then Except.error CoreError.alreadySignedError
    else
      match canonicalize S value with
      | Except.error e => Except.error e
      | Except.ok canonicalPayload =>
        if !S.keyFormatOk secretKey then Except.error CoreError.keyFormatError
        else
          let block : SignatureBlock :=
            { version := S.version
              algorithm := S.algorithm
              keyId := none
              signature := S.mac canonicalPayload secretKey }
          match embed S value block with
          | Except.error e => Except.error e
          | Except.ok signed => Except.ok (S.serialize signed)

/-- Modelled from the spec: `verify` (section 4.4), absent from the sources: parse;
extract the block and the residual value; canonicalize the residual value; recompute the
expected signature; compare; return the residual value on success. -/
def verify {Doc : Type} (S : Scheme Doc) (document : Doc) (verificationKey : String) :
    Except CoreError StructuredValue :=
  match S.parse document with
  | none => Except.error CoreError.parseError
  | some value =>
    match extract S value with
    | Except.error e => Except.error e
    | Except.ok (block, residual) =>
      match canonicalize S residual with
      | Except.error e => Except.error e
      | Except.ok canonicalPayload =>
        if S.mac canonicalPayload verificationKey = block.signature then Except.ok residual
        else Except.error CoreError.signatureMismatchError

mutual
/-- Modelled from the spec: the invariant of the "mapping of string to StructuredValue"
of section 3, a type absent from the sources: no key occurs twice in a mapping, at any
depth. -/
def wellFormed : StructuredValue → Bool
  | StructuredValue.mapping entries =>
    decide ((entries.map Prod.fst).Nodup) && wellFormedEntries entries
  | StructuredValue.sequence items => wellFormedItems items
  | _ => true
/-- All the values of the entries are well formed. -/
def wellFormedEntries : List (String × StructuredValue) → Bool
  | [] => true
  | (_, v) :: rest => wellFormed v && wellFormedEntries rest
/-- All the items are well formed. -/
def wellFormedItems : List StructuredValue → Bool
  | [] => true
  | v :: rest => wellFormed v && wellFormedItems rest
end

/-- Modelled from the spec: the documents of section 8 that "are structurally equal but
differ in key order/whitespace/numeric spelling", on the absent StructuredValue: the
congruence generated by reordering the keys of a mapping and respelling a number,
anywhere inside.  (Whitespace is not part of a StructuredValue: two texts that
differ in whitespace only are the same value.) -/
inductive SameContent : StructuredValue → StructuredValue → Prop where
  | refl (v : StructuredValue) : SameContent v v
  | symm {a b : StructuredValue} : SameContent a b → SameContent b a
  | trans {a b c : StructuredValue} : SameContent a b → SameContent b c → SameContent a c
  | spelling (a b : Number) : a.SameValue b →
      SameContent (StructuredValue.number a) (StructuredValue.number b)
  | keyOrder (entries₁ entries₂ : List (String × StructuredValue)) :
      entries₁.Perm entries₂ →
      SameContent (StructuredValue.mapping entries₁) (StructuredValue.mapping entries₂)
  | inMapping (before after : List (String × StructuredValue)) (k : String)
      {v w : StructuredValue} : SameContent v w →
      SameContent (StructuredValue.mapping (before ++ (k, v) :: after))
        (StructuredValue.mapping (before ++ (k, w) :: after))
  | inSequence (before after : List StructuredValue) {v w : StructuredValue} :
      SameContent v w →
      SameContent (StructuredValue.sequence (before ++ v :: after))
        (StructuredValue.sequence (before ++ w :: after))

/-! ### A small scheme for examples -/

/-- A scheme for examples: documents are handed over already parsed, the reserved key is
`signature`, and the signature is the key followed by the payload. -/
def exampleScheme : Scheme StructuredValue :=
  { reservedKey := "signature"
    version := 1
    algorithm := "example"
    numberText := fun m e => toString m ++ "e" ++ toString e
    stringText := fun s => "\"" ++ s ++ "\""
    keyFormatOk := fun k => k != ""
    mac := fun payload key => key ++ ":" ++ payload
    notAMapping := CoreError.encodingError
    parse := some
    serialize := id }

/-- The document `{"a": 1, "b": "x"}`. -/
def exampleDocument : StructuredValue :=
  StructuredValue.mapping
    [("a", StructuredValue.number (Number.decimal 1 0)), ("b", StructuredValue.string "x")]

/-- The document `{"b": "x", "a": 1.0}`. -/
def exampleReordered : StructuredValue :=
  StructuredValue.mapping
    [("b", StructuredValue.string "x"), ("a", StructuredValue.number (Number.decimal 10 (-1)))]

/-- A document that already carries the reserved key. -/
def exampleSigned : StructuredValue :=
  StructuredValue.mapping
    [("a", StructuredValue.number (Number.decimal 1 0)),
     ("signature", StructuredValue.string "old")]

end Core

namespace SignJson

/-! ## The loop, one entry at a time -/

theorem saveStringToFile_fst (str filepath : String) (w : WriteFile) (disk : Disk) :
    (saveStringToFile str filepath w disk).1 = saveReturns str filepath w := by
  unfold saveReturns saveStringToFile
  by_cases h1 : (!w.fopenOk) = true
  · simp [h1]
  · by_cases h2 : w.fwrite ≠ str.length
    · simp [h1, h2]
    · by_cases h3 : w.fclose ≠ 0
      · simp [h1, h2, h3]
      · simp [h1, h2, h3]

theorem loopBody_eq_step (env : Env) (key : String) (i : Nat) (f : String) (st : LoopState) :
    loopBody env key i f st =
      { failedAFile := st.failedAFile || (step env key i f st.disk).failedAFile
        trace := st.trace ++ stepTrace env key i f
        disk := (step env key i f st.disk).disk
        terminated := !env.loadReturns i f } := by
  unfold stepTrace step loopBody Env.loadReturns Env.load
  cases hl : loadFileToString env.max_size f (env.readFile i f) with
  | error e => simp
  | ok loaded =>
    simp only
    by_cases h : loaded.1 = ""
    · simp [h]
    · simp only [h, if_false]
      cases hs : env.signJson loaded.1 key with
      | error what => simp
      | ok signedJson =>
        simp only [saveStringToFile_fst]
        by_cases hw : saveReturns signedJson f (env.writeFile i f signedJson) = true
        · simp [hw]
        · simp [hw]

theorem forLoop_cons (env : Env) (key : String) (n : Nat) (x : String) (xs : List String)
    (st : LoopState) :
    forLoop env key n (x :: xs) st =
      if (loopBody env key n x st).terminated = true then loopBody env key n x st
      else forLoop env key (n + 1) xs (loopBody env key n x st) := rfl

theorem forLoop_append (env : Env) (key : String) (xs ys : List String) :
    ∀ (n : Nat) (st : LoopState), st.terminated = false →
      forLoop env key n (xs ++ ys) st =
        if (forLoop env key n xs st).terminated = true then forLoop env key n xs st
        else forLoop env key (n + xs.length) ys (forLoop env key n xs st) := by
  induction xs with
  | nil =>
    intro n st h
    have e : forLoop env key n [] st = st := rfl
    simp [e, h]
  | cons x xs ih =>
    intro n st _
    rw [List.cons_append, forLoop_cons, forLoop_cons]
    by_cases ht : (loopBody env key n x st).terminated = true
    · simp only [ht, if_true]
    · have hf : (loopBody env key n x st).terminated = false := by simpa using ht
      simp only [hf, Bool.false_eq_true, if_false]
      rw [ih (n + 1) _ hf]
      have e : n + 1 + xs.length = n + (x :: xs).length := by simp; omega
      rw [e]

theorem forLoop_terminated (env : Env) (key : String) (xs : List String) :
    ∀ (n : Nat) (st : LoopState), st.terminated = false →
      (forLoop env key n xs st).terminated = !env.loadsReturn n xs := by
  induction xs with
  | nil => intro n st h; simp [forLoop, Env.loadsReturn, h]
  | cons x xs ih =>
    intro n st _
    rw [forLoop_cons, loopBody_eq_step]
    simp only [Env.loadsReturn]
    by_cases hr : env.loadReturns n x = true
    · simp only [hr, Bool.not_true, Bool.false_eq_true, if_false, Bool.true_and]
      exact ih (n + 1) _ rfl
    · simp [hr]

theorem loadsReturn_append (env : Env) (xs ys : List String) :
    ∀ n, env.loadsReturn n (xs ++ ys) =
      (env.loadsReturn n xs && env.loadsReturn (n + xs.length) ys) := by
  induction xs with
  | nil => intro n; simp [Env.loadsReturn]
  | cons x xs ih =>
    intro n
    have e : n + 1 + xs.length = n + (xs.length + 1) := by omega
    simp [Env.loadsReturn, ih, Bool.and_assoc, e]

theorem reaches_at_length (env : Env) (pre rest : List String) :
    env.reaches (pre ++ rest) pre.length = env.loadsReturn 0 pre := by
  unfold Env.reaches
  rw [List.take_left]

theorem reaches_after_throw (env : Env) (pre rest : List String) (f : String) (j : Nat)
    (hthrow : env.loadReturns pre.length f = false) (hj : pre.length < j) :
    env.reaches (pre ++ f :: rest) j = false := by
  obtain ⟨k, rfl⟩ : ∃ k, j = pre.length + (k + 1) := ⟨j - pre.length - 1, by omega⟩
  unfold Env.reaches
  rw [List.take_append, List.take_succ_cons, loadsReturn_append]
  simp [Env.loadsReturn, hthrow]

theorem loopBody_terminated (env : Env) (key : String) (i : Nat) (f : String)
    (st : LoopState) : (loopBody env key i f st).terminated = !env.loadReturns i f := by
  rw [loopBody_eq_step]

theorem step_failed_disk (env : Env) (key : String) (i : Nat) (f : String) (d : Disk) :
    (step env key i f d).failedAFile = (step env key i f (fun _ => none)).failedAFile := by
  unfold step loopBody
  cases hl : loadFileToString env.max_size f (env.readFile i f) with
  | error e => rfl
  | ok loaded =>
    simp only
    by_cases h : loaded.1 = ""
    · simp [h]
    · simp only [h, if_false]
      cases hs : env.signJson loaded.1 key with
      | error what => rfl
      | ok signedJson =>
        simp only [saveStringToFile_fst]
        by_cases hw : saveReturns signedJson f (env.writeFile i f signedJson) = true
        · simp [hw]
        · simp [hw]

theorem filter_after_throw (env : Env) (pre rest : List String) (f : String)
    (hthrow : env.loadReturns pre.length f = false) :
    (rest.enumFrom (pre.length + 1)).filter
      (fun p => env.reaches (pre ++ f :: rest) p.1) = [] := by
  rw [List.filter_eq_nil_iff]
  intro p hp
  have hle := List.le_fst_of_mem_enumFrom hp
  rw [reaches_after_throw env pre rest f p.1 hthrow (by omega)]
  simp

theorem loadsReturn_snoc (env : Env) (pre : List String) (f : String)
    (hpre : env.loadsReturn 0 pre = true) (hr : env.loadReturns pre.length f = true) :
    env.loadsReturn 0 (pre ++ [f]) = true := by
  rw [loadsReturn_append]
  simp [Env.loadsReturn, hpre, hr]

theorem forLoop_trace (env : Env) (key : String) (rest : List String) :
    ∀ (pre : List String) (st : LoopState), st.terminated = false →
      env.loadsReturn 0 pre = true →
      (forLoop env key pre.length rest st).trace =
        st.trace ++
          ((rest.enumFrom pre.length).filter (fun p => env.reaches (pre ++ rest) p.1)).flatMap
            (fun p => stepTrace env key p.1 p.2) := by
  induction rest with
  | nil => intro pre st _ _; simp [forLoop]
  | cons f rest ih =>
    intro pre st _ hpre
    have hhead : env.reaches (pre ++ f :: rest) pre.length = true := by
      rw [reaches_at_length]; exact hpre
    have hb := loopBody_eq_step env key pre.length f st
    have ht := loopBody_terminated env key pre.length f st
    rw [forLoop_cons, List.enumFrom_cons, List.filter_cons]
    simp only [hhead, if_true, List.flatMap_cons]
    by_cases hr : env.loadReturns pre.length f = true
    · rw [hr] at ht
      have hlen : (pre ++ [f]).length = pre.length + 1 := by simp
      have happ : (pre ++ [f]) ++ rest = pre ++ f :: rest := by simp
      have := ih (pre ++ [f]) (loopBody env key pre.length f st) ht
        (loadsReturn_snoc env pre f hpre hr)
      rw [hlen, happ] at this
      rw [if_neg (by simp [ht]), this, hb]
      simp [List.append_assoc]
    · have hr' : env.loadReturns pre.length f = false := by simpa using hr
      rw [hr'] at ht
      rw [if_pos (by simp [ht]), filter_after_throw env pre rest f hr', hb]
      simp

theorem forLoop_failed (env : Env) (key : String) (rest : List String) :
    ∀ (pre : List String) (st : LoopState), st.terminated = false →
      env.loadsReturn 0 pre = true →
      (forLoop env key pre.length rest st).failedAFile =
        (st.failedAFile ||
          ((rest.enumFrom pre.length).filter (fun p => env.reaches (pre ++ rest) p.1)).any
            (fun p => (step env key p.1 p.2 (fun _ => none)).failedAFile)) := by
  induction rest with
  | nil => intro pre st _ _; simp [forLoop]
  | cons f rest ih =>
    intro pre st _ hpre
    have hhead : env.reaches (pre ++ f :: rest) pre.length = true := by
      rw [reaches_at_length]; exact hpre
    have hb := loopBody_eq_step env key pre.length f st
    have ht := loopBody_terminated env key pre.length f st
    rw [forLoop_cons, List.enumFrom_cons, List.filter_cons]
    simp only [hhead, if_true, List.any_cons]
    by_cases hr : env.loadReturns pre.length f = true
    · rw [hr] at ht
      have hlen : (pre ++ [f]).length = pre.length + 1 := by simp
      have happ : (pre ++ [f]) ++ rest = pre ++ f :: rest := by simp
      have := ih (pre ++ [f]) (loopBody env key pre.length f st) ht
        (loadsReturn_snoc env pre f hpre hr)
      rw [hlen, happ] at this
      rw [if_neg (by simp [ht]), this, hb]
      simp [Bool.or_assoc, step_failed_disk env key pre.length f st.disk]
    · have hr' : env.loadReturns pre.length f = false := by simpa using hr
      rw [hr'] at ht
      rw [if_pos (by simp [ht]), filter_after_throw env pre rest f hr', hb]
      simp [step_failed_disk env key pre.length f st.disk]

theorem runBatch_trace (env : Env) (key : String) (disk : Disk)
    (jsonfiles : Option (List String)) :
    (runBatch env key disk jsonfiles).trace =
      (env.reached (fileList jsonfiles)).flatMap (fun p => stepTrace env key p.1 p.2) := by
  cases jsonfiles with
  | none => rfl
  | some files =>
    have h := forLoop_trace env key files [] ⟨false, [], disk, false⟩ rfl rfl
    simpa [runBatch, main, fileList, Env.reached] using h

theorem runBatch_exitCode (env : Env) (key : String) (disk : Disk)
    (jsonfiles : Option (List String)) :
    (runBatch env key disk jsonfiles).exitCode =
      if env.loadsReturn 0 (fileList jsonfiles) then
        some (if (env.reached (fileList jsonfiles)).any
            (fun p => (step env key p.1 p.2 (fun _ => none)).failedAFile) then 1 else 0)
      else none := by
  cases jsonfiles with
  | none => rfl
  | some files =>
    have ht := forLoop_terminated env key files 0 ⟨false, [], disk, false⟩ rfl
    have hf := forLoop_failed env key files [] ⟨false, [], disk, false⟩ rfl rfl
    simp only [List.length_nil, List.nil_append, Bool.false_or] at hf
    show (if (forLoop env key 0 files _).terminated = true then none
      else some (if (forLoop env key 0 files _).failedAFile = true then 1 else 0)) = _
    simp only [ht, hf, fileList, Option.getD_some, Env.reached]
    by_cases hl : env.loadsReturn 0 files = true
    · simp [hl]
    · simp [hl]

/-! ## What one entry contributes to the trace -/

theorem loadOf_cerr (l : List String) : (l.map Event.cerr).filterMap Event.loadOf = [] := by
  induction l with
  | nil => rfl
  | cons a l ih => simp [List.filterMap_cons, Event.loadOf]

theorem signOf_cerr (l : List String) : (l.map Event.cerr).filterMap Event.signOf = [] := by
  induction l with
  | nil => rfl
  | cons a l ih => simp [List.filterMap_cons, Event.signOf]

theorem saveOf_cerr (l : List String) : (l.map Event.cerr).filterMap Event.saveOf = [] := by
  induction l with
  | nil => rfl
  | cons a l ih => simp [List.filterMap_cons, Event.saveOf]

theorem coutOf_cerr (l : List String) : (l.map Event.cerr).filterMap Event.coutOf = [] := by
  induction l with
  | nil => rfl
  | cons a l ih => simp [List.filterMap_cons, Event.coutOf]

/-- The trace of the loop body for one entry, case by case. -/
theorem stepTrace_eq (env : Env) (key : String) (i : Nat) (f : String) :
    stepTrace env key i f =
      match env.load i f with
      | Except.error _ => [Event.load f, Event.terminate]
      | Except.ok loaded =>
        Event.load f :: loaded.2.map Event.cerr ++
          (if loaded.1 = "" then
            [Event.cerr ("File is empty / does not exist / could not be loaded: " ++ f)]
          else
            Event.sign loaded.1 key ::
              (match env.signJson loaded.1 key with
               | Except.error what =>
                 [Event.cerr ("Failed to sign file \"" ++ f ++ "\" with error: " ++ what)]
               | Except.ok signedJson =>
                 Event.save signedJson f ::
                   (if saveReturns signedJson f (env.writeFile i f signedJson) then
                     [Event.cout ("Signed file: " ++ f)]
                   else [Event.cerr ("Failed to save signed file: " ++ f)]))) := by
  unfold stepTrace step loopBody Env.load
  cases hl : loadFileToString env.max_size f (env.readFile i f) with
  | error e => simp
  | ok loaded =>
    simp only
    by_cases h : loaded.1 = ""
    · simp [h]
    · simp only [h, if_false]
      cases hs : env.signJson loaded.1 key with
      | error what => simp
      | ok signedJson =>
        simp only [saveStringToFile_fst]
        by_cases hw : saveReturns signedJson f (env.writeFile i f signedJson) = true
        · simp [hw]
        · simp [hw]

theorem step_loads (env : Env) (key : String) (i : Nat) (f : String) :
    (stepTrace env key i f).filterMap Event.loadOf = [f] := by
  rw [stepTrace_eq]
  cases env.load i f with
  | error e => simp [List.filterMap_cons, Event.loadOf]
  | ok loaded =>
    simp only
    by_cases h : loaded.1 = ""
    · simp [h, List.filterMap_cons, List.filterMap_append, loadOf_cerr, Event.loadOf]
    · simp only [h, if_false]
      cases env.signJson loaded.1 key with
      | error what =>
        simp [List.filterMap_cons, List.filterMap_append, loadOf_cerr, Event.loadOf]
      | ok signedJson =>
        by_cases hw : saveReturns signedJson f (env.writeFile i f signedJson) = true
        · simp [hw, List.filterMap_cons, List.filterMap_append, loadOf_cerr, Event.loadOf]
        · simp [hw, List.filterMap_cons, List.filterMap_append, loadOf_cerr, Event.loadOf]

theorem step_head (env : Env) (key : String) (i : Nat) (f : String) :
    ∃ tl, stepTrace env key i f = Event.load f :: tl := by
  rw [stepTrace_eq]
  cases env.load i f with
  | error e => exact ⟨_, rfl⟩
  | ok loaded => exact ⟨_, rfl⟩

theorem step_signs (env : Env) (key : String) (i : Nat) (f : String) :
    (stepTrace env key i f).filterMap Event.signOf =
      (match env.load i f with
       | Except.ok loaded => if loaded.1 = "" then none else some (loaded.1, key)
       | Except.error _ => none).toList := by
  rw [stepTrace_eq]
  cases env.load i f with
  | error e => simp [List.filterMap_cons, Event.signOf]
  | ok loaded =>
    simp only
    by_cases h : loaded.1 = ""
    · simp [h, List.filterMap_cons, List.filterMap_append, signOf_cerr, Event.signOf]
    · simp only [h, if_false]
      cases env.signJson loaded.1 key with
      | error what =>
        simp [List.filterMap_cons, List.filterMap_append, signOf_cerr, Event.signOf]
      | ok signedJson =>
        by_cases hw : saveReturns signedJson f (env.writeFile i f signedJson) = true
        · simp [hw, List.filterMap_cons, List.filterMap_append, signOf_cerr, Event.signOf]
        · simp [hw, List.filterMap_cons, List.filterMap_append, signOf_cerr, Event.signOf]

theorem step_saves (env : Env) (key : String) (i : Nat) (f : String) :
    (stepTrace env key i f).filterMap Event.saveOf =
      (match env.load i f with
       | Except.ok loaded =>
         if loaded.1 = "" then none
         else
           match env.signJson loaded.1 key with
           | Except.ok signedJson => some (signedJson, f)
           | Except.error _ => none
       | Except.error _ => none).toList := by
  rw [stepTrace_eq]
  cases env.load i f with
  | error e => simp [List.filterMap_cons, Event.saveOf]
  | ok loaded =>
    simp only
    by_cases h : loaded.1 = ""
    · simp [h, List.filterMap_cons, List.filterMap_append, saveOf_cerr, Event.saveOf]
    · simp only [h, if_false]
      cases env.signJson loaded.1 key with
      | error what =>
        simp [List.filterMap_cons, List.filterMap_append, saveOf_cerr, Event.saveOf]
      | ok signedJson =>
        by_cases hw : saveReturns signedJson f (env.writeFile i f signedJson) = true
        · simp [hw, List.filterMap_cons, List.filterMap_append, saveOf_cerr, Event.saveOf]
        · simp [hw, List.filterMap_cons, List.filterMap_append, saveOf_cerr, Event.saveOf]

theorem step_couts (env : Env) (key : String) (i : Nat) (f : String) :
    (stepTrace env key i f).filterMap Event.coutOf =
      (match env.load i f with
       | Except.ok loaded =>
         if loaded.1 = "" then none
         else
           match env.signJson loaded.1 key with
           | Except.ok signedJson =>
             if saveReturns signedJson f (env.writeFile i f signedJson) then
               some ("Signed file: " ++ f)
             else none
           | Except.error _ => none
       | Except.error _ => none).toList := by
  rw [stepTrace_eq]
  cases env.load i f with
  | error e => simp [List.filterMap_cons, Event.coutOf]
  | ok loaded =>
    simp only
    by_cases h : loaded.1 = ""
    · simp [h, List.filterMap_cons, List.filterMap_append, coutOf_cerr, Event.coutOf]
    · simp only [h, if_false]
      cases env.signJson loaded.1 key with
      | error what =>
        simp [List.filterMap_cons, List.filterMap_append, coutOf_cerr, Event.coutOf]
      | ok signedJson =>
        by_cases hw : saveReturns signedJson f (env.writeFile i f signedJson) = true
        · simp [hw, List.filterMap_cons, List.filterMap_append, coutOf_cerr, Event.coutOf]
        · simp [hw, List.filterMap_cons, List.filterMap_append, coutOf_cerr, Event.coutOf]

theorem flatMap_toList {α β : Type} (h : α → Option β) (l : List α) :
    l.flatMap (fun a => (h a).toList) = l.filterMap h := by
  induction l with
  | nil => rfl
  | cons a l ih =>
    rw [List.flatMap_cons, ih, List.filterMap_cons]
    cases h a <;> rfl

theorem filterMap_if_filter {α β : Type} (q : α → Bool) (h : α → Option β) (l : List α) :
    (l.filter q).filterMap h = l.filterMap (fun a => if q a then h a else none) := by
  induction l with
  | nil => rfl
  | cons a l ih =>
    by_cases hq : q a = true
    · simp [List.filter_cons, List.filterMap_cons, hq, ih]
    · simp [List.filter_cons, List.filterMap_cons, hq, ih]

/-- The events of one kind in the trace of a run, entry by entry over the whole list. -/
theorem filterMap_trace {β : Type} (g : Event → Option β) (h k : Nat × String → Option β)
    (env : Env) (key : String) (disk : Disk) (jsonfiles : Option (List String))
    (hstep : ∀ i f, (stepTrace env key i f).filterMap g = (h (i, f)).toList)
    (hk : ∀ p, k p = if env.reaches (fileList jsonfiles) p.1 then h p else none) :
    (runBatch env key disk jsonfiles).trace.filterMap g =
      ((fileList jsonfiles).enumFrom 0).filterMap k := by
  rw [runBatch_trace]
  simp only [List.filterMap_flatMap, hstep]
  rw [flatMap_toList, Env.reached, filterMap_if_filter]
  congr 1
  funext p
  exact (hk p).symm

/-! ## Calls of `signJson` -/

/-- C5. The key is passed explicitly per call and is constant over the batch: in every
run, also one that an exception ends, the calls of `signJson` made by `main` are, in
order, exactly one call for each entry of the file list whose loaded content (the string
the call of `loadFileToString` made by `main` returned) is non-empty, with that content
unmodified as the document and the value of `-k` as the key. -/
theorem signJson_called_once_per_loaded_file (env : Env) (b64_secretKey : String)
    (disk : Disk) (jsonfiles : Option (List String)) :
    (runBatch env b64_secretKey disk jsonfiles).trace.filterMap Event.signOf =
      ((fileList jsonfiles).enumFrom 0).filterMap
        (fun p => (env.loaded (fileList jsonfiles) p.1 p.2).bind
          (fun originalJson =>
            if originalJson = "" then none else some (originalJson, b64_secretKey))) := by
  refine filterMap_trace Event.signOf
    (fun p =>
      match env.load p.1 p.2 with
      | Except.ok loaded => if loaded.1 = "" then none else some (loaded.1, b64_secretKey)
      | Except.error _ => none)
    _ env b64_secretKey disk jsonfiles (fun i f => step_signs env b64_secretKey i f) ?_
  intro p
  unfold Env.loaded
  by_cases hr : env.reaches (fileList jsonfiles) p.1 = true
  · simp only [hr, if_true]
    cases env.load p.1 p.2 with
    | error e => rfl
    | ok loaded => rfl
  · simp [hr]

/-! ## Writes -/

/-- The disk after the loop body, case by case. -/
theorem step_disk (env : Env) (key : String) (i : Nat) (f : String) (disk : Disk) :
    (step env key i f disk).disk =
      match env.load i f with
      | Except.error _ => disk
      | Except.ok loaded =>
        if loaded.1 = "" then disk
        else
          match env.signJson loaded.1 key with
          | Except.error _ => disk
          | Except.ok signedJson =>
            (saveStringToFile signedJson f (env.writeFile i f signedJson) disk).2 := by
  unfold step loopBody Env.load
  cases hl : loadFileToString env.max_size f (env.readFile i f) with
  | error e => rfl
  | ok loaded =>
    simp only
    by_cases h : loaded.1 = ""
    · simp [h]
    · simp only [h, if_false]
      cases hs : env.signJson loaded.1 key with
      | error what => rfl
      | ok signedJson =>
        simp only
        by_cases hw : (saveStringToFile signedJson f (env.writeFile i f signedJson) disk).1 = true
        · simp [hw]
        · simp [hw]

theorem runBatch_some (env : Env) (key : String) (disk : Disk) (files : List String) :
    runBatch env key disk (some files) =
      { exitCode :=
          if (forLoop env key 0 files ⟨false, [], disk, false⟩).terminated then none
          else some (if (forLoop env key 0 files ⟨false, [], disk, false⟩).failedAFile
            then 1 else 0)
        trace := (forLoop env key 0 files ⟨false, [], disk, false⟩).trace
        disk := (forLoop env key 0 files ⟨false, [], disk, false⟩).disk } := rfl

theorem forLoop_snoc (env : Env) (key : String) (pre : List String) (f : String)
    (st : LoopState) (h : st.terminated = false) :
    forLoop env key 0 (pre ++ [f]) st =
      if env.loadsReturn 0 pre then loopBody env key pre.length f (forLoop env key 0 pre st)
      else forLoop env key 0 pre st := by
  rw [forLoop_append env key pre [f] 0 st h, forLoop_terminated env key pre 0 st h]
  by_cases hl : env.loadsReturn 0 pre = true
  · simp only [hl, Bool.not_true, Bool.false_eq_true, if_false, if_true, Nat.zero_add,
      forLoop_cons]
    have e : ∀ s : LoopState, forLoop env key (pre.length + 1) [] s = s := fun _ => rfl
    simp only [e, ite_self]
  · simp [hl]

/-- The disk after one more entry. -/
theorem disk_after_entry (env : Env) (key : String) (disk : Disk) (pre post : List String)
    (f : String) :
    (runBatch env key disk (some (pre ++ [f]))).disk =
      match env.signed key (pre ++ f :: post) pre.length f with
      | some signedJson =>
        (saveStringToFile signedJson f (env.writeFile pre.length f signedJson)
          (runBatch env key disk (some pre)).disk).2
      | none => (runBatch env key disk (some pre)).disk := by
  rw [runBatch_some, runBatch_some]
  simp only
  rw [forLoop_snoc env key pre f _ rfl]
  unfold Env.signed Env.loaded
  rw [reaches_at_length]
  by_cases hl : env.loadsReturn 0 pre = true
  · simp only [hl, if_true]
    rw [loopBody_eq_step]
    simp only
    rw [step_disk]
    cases env.load pre.length f with
    | error e => rfl
    | ok loaded =>
      simp only
      by_cases h : loaded.1 = ""
      · simp [h]
      · simp only [h, if_false]
        cases env.signJson loaded.1 key with
        | error what => rfl
        | ok signedJson => rfl
  · simp [hl]

theorem trace_extends (env : Env) (key : String) (disk : Disk) (pre post : List String) :
    ∃ rest, (runBatch env key disk (some (pre ++ post))).trace =
      (runBatch env key disk (some pre)).trace ++ rest := by
  rw [runBatch_some, runBatch_some]
  simp only
  rw [forLoop_append env key pre post 0 _ rfl]
  by_cases ht : (forLoop env key 0 pre ⟨false, [], disk, false⟩).terminated = true
  · exact ⟨[], by simp [ht]⟩
  · have hf : (forLoop env key 0 pre ⟨false, [], disk, false⟩).terminated = false := by
      simpa using ht
    have hl : env.loadsReturn 0 pre = true := by
      have := forLoop_terminated env key pre 0 ⟨false, [], disk, false⟩ rfl
      rw [hf] at this
      simpa using this.symm
    simp only [hf, Bool.false_eq_true, if_false, Nat.zero_add]
    exact ⟨_, forLoop_trace env key post pre _ hf hl⟩

/-- C3. The signed result is written back to the same resource and nothing else is
written.  In every run, also one that an exception ends: the calls of `saveStringToFile`
made by `main` are, in order, one call for each entry whose loaded content is non-empty
and for which `signJson` returned, with exactly the string `signJson` returned and
exactly the file name that was read; `saveStringToFile` returns true exactly when the
file was opened, all the bytes were written and the stream was closed, the file then
holds exactly the string, and no other file is changed; the disk after an entry is the
disk before it changed by that one call, and is the disk before it when the load or the
signing of the entry failed, so that file is never opened for writing. -/
theorem saves_are_exactly_the_signed_results (env : Env) (b64_secretKey : String)
    (disk : Disk) (jsonfiles : Option (List String)) :
    (runBatch env b64_secretKey disk jsonfiles).trace.filterMap Event.saveOf =
      ((fileList jsonfiles).enumFrom 0).filterMap
        (fun p => (env.signed b64_secretKey (fileList jsonfiles) p.1 p.2).map
          (fun signedJson => (signedJson, p.2))) ∧
    (∀ (str filepath : String) (w : WriteFile) (before : Disk),
      ((saveStringToFile str filepath w before).1 = true ↔
        w.fopenOk = true ∧ w.fwrite = str.length ∧ w.fclose = 0) ∧
      ((saveStringToFile str filepath w before).1 = true →
        (saveStringToFile str filepath w before).2 filepath = some str) ∧
      (∀ path, path ≠ filepath →
        (saveStringToFile str filepath w before).2 path = before path)) ∧
    (∀ (pre post : List String) (filename : String),
      fileList jsonfiles = pre ++ filename :: post →
      (∃ rest, (runBatch env b64_secretKey disk jsonfiles).trace =
        (runBatch env b64_secretKey disk (some (pre ++ [filename]))).trace ++ rest) ∧
      (runBatch env b64_secretKey disk (some (pre ++ [filename]))).disk =
        match env.signed b64_secretKey (fileList jsonfiles) pre.length filename with
        | some signedJson =>
          (saveStringToFile signedJson filename
            (env.writeFile pre.length filename signedJson)
            (runBatch env b64_secretKey disk (some pre)).disk).2
        | none => (runBatch env b64_secretKey disk (some pre)).disk) ∧
    (runBatch env b64_secretKey disk (some [])).disk = disk ∧
    (runBatch env b64_secretKey disk none).disk = disk ∧
    (runBatch env b64_secretKey disk jsonfiles).disk =
      (runBatch env b64_secretKey disk (some (fileList jsonfiles))).disk := by
  refine ⟨?_, ?_, ?_, rfl, rfl, ?_⟩
  · refine filterMap_trace Event.saveOf
      (fun p =>
        match env.load p.1 p.2 with
        | Except.ok loaded =>
          if loaded.1 = "" then none
          else
            match env.signJson loaded.1 b64_secretKey with
            | Except.ok signedJson => some (signedJson, p.2)
            | Except.error _ => none
        | Except.error _ => none)
      _ env b64_secretKey disk jsonfiles (fun i f => step_saves env b64_secretKey i f) ?_
    intro p
    unfold Env.signed Env.loaded
    by_cases hr : env.reaches (fileList jsonfiles) p.1 = true
    · simp only [hr, if_true]
      cases env.load p.1 p.2 with
      | error e => rfl
      | ok loaded =>
        simp only
        by_cases h : loaded.1 = ""
        · simp [h]
        · simp only [h, if_false]
          cases env.signJson loaded.1 b64_secretKey with
          | error what => rfl
          | ok signedJson => rfl
    · simp [hr]
  · intro str filepath w before
    unfold saveStringToFile
    by_cases h1 : w.fopenOk = true
    · by_cases h2 : w.fwrite = str.length
      · by_cases h3 : w.fclose = 0
        · refine ⟨?_, fun _ => ?_, fun p hp => ?_⟩
          · simp [h1, h2, h3]
          · simp [h1, h2, h3, Disk.write]
          · simp [h1, h2, h3, Disk.write, hp]
        · refine ⟨?_, fun h => ?_, fun p hp => ?_⟩
          · simp [h1, h2, h3]
          · simp [h1, h2, h3] at h
          · simp [h1, h2, h3, Disk.write, hp]
      · refine ⟨?_, fun h => ?_, fun p hp => ?_⟩
        · simp [h1, h2]
        · simp [h1, h2] at h
        · simp [h1, h2, Disk.write, hp]
    · refine ⟨?_, fun h => ?_, fun p hp => ?_⟩
      · simp [h1]
      · simp [h1] at h
      · simp [h1]
  · intro pre post f hsplit
    constructor
    · cases jsonfiles with
      | none => simp [fileList] at hsplit
      | some files =>
        have hfiles : files = (pre ++ [f]) ++ post := by
          simpa [fileList] using hsplit
        rw [hfiles]
        exact trace_extends env b64_secretKey disk (pre ++ [f]) post
    · rw [hsplit]
      exact disk_after_entry env b64_secretKey disk pre post f
  · cases jsonfiles with
    | none => rfl
    | some files => rfl

/-! ## Messages -/

theorem loadsReturn_take (env : Env) (l : List String) :
    ∀ (n j : Nat), env.loadsReturn n l = true → env.loadsReturn n (l.take j) = true := by
  induction l with
  | nil => intro n j h; simpa using h
  | cons x xs ih =>
    intro n j h
    cases j with
    | zero => rfl
    | succ j =>
      simp only [Env.loadsReturn, Bool.and_eq_true] at h
      simp only [List.take_succ_cons, Env.loadsReturn, Bool.and_eq_true]
      exact ⟨h.1, ih (n + 1) j h.2⟩

theorem reaches_mono (env : Env) (files : List String) (i j : Nat) (hji : j ≤ i)
    (h : env.reaches files i = true) : env.reaches files j = true := by
  unfold Env.reaches at h ⊢
  have := loadsReturn_take env (files.take i) 0 j h
  rwa [List.take_take, Nat.min_eq_left hji] at this

theorem flatMap_filter_split (q : Nat → Bool) (g : Nat × String → List Event)
    (hg : ∀ p, (g p).filterMap Event.loadOf = [p.2]) :
    ∀ (l : List String) (n i : Nat) (f : String), l[i]? = some f →
      (∀ j, j ≤ i → q (n + j) = true) →
      ∃ before after,
        ((l.enumFrom n).filter (fun p => q p.1)).flatMap g = before ++ g (n + i, f) ++ after ∧
        before.filterMap Event.loadOf = l.take i := by
  intro l
  induction l with
  | nil => intro n i f h; simp at h
  | cons x xs ih =>
    intro n i f h hq
    have hq0 : q n = true := by simpa using hq 0 (Nat.zero_le _)
    cases i with
    | zero =>
      simp at h
      subst h
      exact ⟨[], ((xs.enumFrom (n + 1)).filter (fun p => q p.1)).flatMap g,
        by simp [List.enumFrom_cons, List.filter_cons, hq0], by simp⟩
    | succ j =>
      have hj : xs[j]? = some f := by simpa using h
      have hq' : ∀ k, k ≤ j → q (n + 1 + k) = true := by
        intro k hk
        have := hq (k + 1) (by omega)
        have e : n + (k + 1) = n + 1 + k := by omega
        rwa [e] at this
      obtain ⟨before, after, h1, h2⟩ := ih (n + 1) j f hj hq'
      refine ⟨g (n, x) ++ before, after, ?_, ?_⟩
      · have e : n + 1 + j = n + (j + 1) := by omega
        rw [List.enumFrom_cons, List.filter_cons]
        simp only [hq0, if_true, List.flatMap_cons]
        rw [h1, e]
        simp [List.append_assoc]
      · rw [List.filterMap_append, hg, h2]
        simp

theorem trace_split (env : Env) (key : String) (disk : Disk)
    (jsonfiles : Option (List String)) (i : Nat) (f : String)
    (h : (fileList jsonfiles)[i]? = some f)
    (hr : env.reaches (fileList jsonfiles) i = true) :
    ∃ before after,
      (runBatch env key disk jsonfiles).trace = before ++ stepTrace env key i f ++ after ∧
      before.filterMap Event.loadOf = (fileList jsonfiles).take i := by
  rw [runBatch_trace, Env.reached]
  have := flatMap_filter_split (env.reaches (fileList jsonfiles))
    (fun p => stepTrace env key p.1 p.2) (fun p => step_loads env key p.1 p.2)
    (fileList jsonfiles) 0 i f h
    (fun j hj => by rw [Nat.zero_add]; exact reaches_mono env _ i j hj hr)
  simpa using this

theorem take_succ_of_getElem? {α : Type} (l : List α) (i : Nat) (a : α) (h : l[i]? = some a) :
    l.take (i + 1) = l.take i ++ [a] := by
  rw [List.take_succ, h]; rfl

theorem names_at_end (a f : String) : Names (a ++ f) f :=
  ⟨a, "", by simp⟩

theorem names_inside (a f b c : String) : Names (a ++ f ++ b ++ c) f :=
  ⟨a, b ++ c, by simp [String.append_assoc]⟩

theorem loaded_eq_some (env : Env) (files : List String) (i : Nat) (f c : String)
    (h : env.loaded files i f = some c) :
    env.reaches files i = true ∧ ∃ diag, env.load i f = Except.ok (c, diag) := by
  unfold Env.loaded at h
  by_cases hr : env.reaches files i = true
  · rw [if_pos hr] at h
    refine ⟨hr, ?_⟩
    cases hl : env.load i f with
    | error e => rw [hl] at h; cases h
    | ok loaded =>
      rw [hl] at h
      simp only [Option.some.injEq] at h
      exact ⟨loaded.2, by rw [← h]⟩
  · rw [if_neg hr] at h; cases h

theorem step_failure_message (env : Env) (key : String) (i : Nat) (f c : String)
    (diag : List String) (hload : env.load i f = Except.ok (c, diag))
    (hfail : c = "" ∨ (∃ what, env.signJson c key = Except.error what) ∨
      (∃ s, env.signJson c key = Except.ok s ∧
        saveReturns s f (env.writeFile i f s) = false)) :
    ∃ init line, stepTrace env key i f = init ++ [Event.cerr line] ∧
      init.filterMap Event.loadOf = [f] ∧ Names line f := by
  rw [stepTrace_eq, hload]
  simp only
  by_cases h : c = ""
  · simp only [h, if_true]
    exact ⟨Event.load f :: diag.map Event.cerr,
      "File is empty / does not exist / could not be loaded: " ++ f, by simp,
      by simp [List.filterMap_cons, loadOf_cerr, Event.loadOf], names_at_end _ f⟩
  · simp only [h, if_false]
    rcases hfail with h0 | ⟨what, hs⟩ | ⟨s, hs, hw⟩
    · exact absurd h0 h
    · rw [hs]
      exact ⟨Event.load f :: diag.map Event.cerr ++ [Event.sign c key],
        "Failed to sign file \"" ++ f ++ "\" with error: " ++ what, by simp,
        by simp [List.filterMap_cons, List.filterMap_append, loadOf_cerr, Event.loadOf],
        names_inside _ f _ _⟩
    · rw [hs]
      simp only [hw, Bool.false_eq_true, if_false]
      exact ⟨Event.load f :: diag.map Event.cerr ++ [Event.sign c key, Event.save s f],
        "Failed to save signed file: " ++ f, by simp,
        by simp [List.filterMap_cons, List.filterMap_append, loadOf_cerr, Event.loadOf],
        names_at_end _ f⟩

/-- C4. No error is silently swallowed.  In every run, also one that an exception ends:
for every entry of the file list whose load yields empty content, or for which `signJson`
throws a `std::exception`, or whose save fails, `main` writes a line naming that file to
`std::cerr` after it has called `loadFileToString` for this entry and before it calls it
for another one; and the lines written to `std::cout` are, in order,
`Signed file: <filename>` for exactly the entries of which the load, the signing and the
save all succeeded. -/
theorem failures_reported_successes_announced (env : Env) (b64_secretKey : String)
    (disk : Disk) (jsonfiles : Option (List String)) :
    (∀ i filename, (fileList jsonfiles)[i]? = some filename →
      FileFails env b64_secretKey (fileList jsonfiles) i filename →
      ∃ before line after,
        (runBatch env b64_secretKey disk jsonfiles).trace =
          before ++ Event.cerr line :: after ∧
        before.filterMap Event.loadOf = (fileList jsonfiles).take (i + 1) ∧
        Names line filename) ∧
    (runBatch env b64_secretKey disk jsonfiles).trace.filterMap Event.coutOf =
      ((fileList jsonfiles).enumFrom 0).filterMap
        (fun p => (env.saved b64_secretKey (fileList jsonfiles) p.1 p.2).map
          (fun _ => "Signed file: " ++ p.2)) := by
  constructor
  · intro i f hi hfail
    obtain ⟨c, hc, hcases⟩ := hfail
    obtain ⟨hr, diag, hload⟩ := loaded_eq_some env _ i f c hc
    obtain ⟨before, after, htrace, hbefore⟩ :=
      trace_split env b64_secretKey disk jsonfiles i f hi hr
    obtain ⟨init, line, hstep, hinit, hname⟩ :=
      step_failure_message env b64_secretKey i f c diag hload hcases
    refine ⟨before ++ init, line, after, ?_, ?_, hname⟩
    · rw [htrace, hstep]; simp [List.append_assoc]
    · rw [List.filterMap_append, hbefore, hinit]
      exact (take_succ_of_getElem? _ i f hi).symm
  · refine filterMap_trace Event.coutOf
      (fun p =>
        match env.load p.1 p.2 with
        | Except.ok loaded =>
          if loaded.1 = "" then none
          else
            match env.signJson loaded.1 b64_secretKey with
            | Except.ok signedJson =>
              if saveReturns signedJson p.2 (env.writeFile p.1 p.2 signedJson) then
                some ("Signed file: " ++ p.2)
              else none
            | Except.error _ => none
        | Except.error _ => none)
      _ env b64_secretKey disk jsonfiles (fun i f => step_couts env b64_secretKey i f) ?_
    intro p
    unfold Env.saved Env.signed Env.loaded
    by_cases hr : env.reaches (fileList jsonfiles) p.1 = true
    · simp only [hr, if_true]
      cases env.load p.1 p.2 with
      | error e => rfl
      | ok loaded =>
        simp only
        by_cases h : loaded.1 = ""
        · simp [h]
        · simp only [h, if_false]
          cases env.signJson loaded.1 b64_secretKey with
          | error what => rfl
          | ok signedJson =>
            simp only
            by_cases hw : saveReturns signedJson p.2 (env.writeFile p.1 p.2 signedJson) = true
            · simp [hw]
            · simp [hw]
    · simp [hr]

/-! ## Missing key -/

/-- C9. When the arguments parse but no `-k` secret key is supplied, `main` returns 1 and
its only action is the message on `std::cerr`: no file is loaded, signed or written,
whatever the file list, and the disk is as it was. -/
theorem main_missing_secretkey (env : Env) (disk : Disk) (jsonfiles : Option (List String)) :
    (main env disk (ParseCLI.parsed none jsonfiles)).exitCode = some 1 ∧
    (main env disk (ParseCLI.parsed none jsonfiles)).trace =
      [Event.cerr "Missing required secretkey parameter"] ∧
    (main env disk (ParseCLI.parsed none jsonfiles)).trace.filterMap Event.loadOf = [] ∧
    (main env disk (ParseCLI.parsed none jsonfiles)).trace.filterMap Event.signOf = [] ∧
    (main env disk (ParseCLI.parsed none jsonfiles)).trace.filterMap Event.saveOf = [] ∧
    (main env disk (ParseCLI.parsed none jsonfiles)).disk = disk :=
  ⟨rfl, rfl, rfl, rfl, rfl, rfl⟩

/-! ## The exit code, the loads and `loadFileToString`, where no exception is thrown -/

theorem step_failed_iff (env : Env) (key : String) (i : Nat) (f : String) :
    (step env key i f (fun _ => none)).failedAFile = true ↔
      ∃ c diag, env.load i f = Except.ok (c, diag) ∧
        (c = "" ∨ (∃ what, env.signJson c key = Except.error what) ∨
          (∃ s, env.signJson c key = Except.ok s ∧
            saveReturns s f (env.writeFile i f s) = false)) := by
  unfold step loopBody Env.load
  cases hl : loadFileToString env.max_size f (env.readFile i f) with
  | error e => simp
  | ok loaded =>
    obtain ⟨c, diag⟩ := loaded
    simp only [Except.ok.injEq, Prod.mk.injEq]
    by_cases h : c = ""
    · simp only [h, if_true, true_iff]
      exact ⟨"", diag, ⟨rfl, rfl⟩, Or.inl rfl⟩
    · simp only [h, if_false]
      cases hs : env.signJson c key with
      | error what =>
        simp only [true_iff]
        exact ⟨c, diag, ⟨rfl, rfl⟩, Or.inr (Or.inl ⟨what, hs⟩)⟩
      | ok signedJson =>
        simp only [saveStringToFile_fst]
        by_cases hw : saveReturns signedJson f (env.writeFile i f signedJson) = true
        · simp only [hw, Bool.not_true, Bool.false_eq_true, if_false, false_iff]
          rintro ⟨c', diag', ⟨rfl, rfl⟩, h0 | ⟨what, h1⟩ | ⟨s, h2, h3⟩⟩
          · exact h h0
          · rw [hs] at h1; cases h1
          · rw [hs] at h2
            cases h2
            rw [hw] at h3
            cases h3
        · have hw' : saveReturns signedJson f (env.writeFile i f signedJson) = false := by
            simpa using hw
          simp only [hw', Bool.not_false, if_true, true_iff]
          exact ⟨c, diag, ⟨rfl, rfl⟩, Or.inr (Or.inr ⟨signedJson, hs, hw'⟩)⟩

theorem fileFails_iff (env : Env) (key : String) (files : List String) (i : Nat)
    (f : String) :
    FileFails env key files i f ↔
      env.reaches files i = true ∧
        (step env key i f (fun _ => none)).failedAFile = true := by
  rw [step_failed_iff]
  constructor
  · rintro ⟨c, hc, hcases⟩
    obtain ⟨hr, diag, hload⟩ := loaded_eq_some env files i f c hc
    exact ⟨hr, c, diag, hload, hcases⟩
  · rintro ⟨hr, c, diag, hload, hcases⟩
    refine ⟨c, ?_, hcases⟩
    unfold Env.loaded
    rw [if_pos hr, hload]

theorem any_reached_iff (env : Env) (files : List String) (q : Nat × String → Bool) :
    (env.reached files).any q = true ↔
      ∃ i f, files[i]? = some f ∧ env.reaches files i = true ∧ q (i, f) = true := by
  unfold Env.reached
  rw [List.any_eq_true]
  constructor
  · rintro ⟨⟨i, f⟩, hmem, hq⟩
    rw [List.mem_filter] at hmem
    have := List.mk_mem_enumFrom_iff_le_and_getElem?_sub.mp hmem.1
    exact ⟨i, f, by simpa using this.2, hmem.2, hq⟩
  · rintro ⟨i, f, hi, hr, hq⟩
    refine ⟨(i, f), ?_, hq⟩
    rw [List.mem_filter]
    exact ⟨List.mk_mem_enumFrom_iff_le_and_getElem?_sub.mpr
      ⟨Nat.zero_le _, by simpa using hi⟩, hr⟩

/-- The exit code of every run: `main` does not return exactly when the load of some entry
throws; otherwise it returns 1 exactly when some entry fails, and 0 when none does. -/
theorem exitCode_cases (env : Env) (key : String) (disk : Disk)
    (jsonfiles : Option (List String)) :
    ((runBatch env key disk jsonfiles).exitCode = none ↔
      env.loadsReturn 0 (fileList jsonfiles) = false) ∧
    ((runBatch env key disk jsonfiles).exitCode = some 1 ↔
      env.loadsReturn 0 (fileList jsonfiles) = true ∧
        ∃ i f, (fileList jsonfiles)[i]? = some f ∧
          FileFails env key (fileList jsonfiles) i f) ∧
    ((runBatch env key disk jsonfiles).exitCode = some 0 ↔
      env.loadsReturn 0 (fileList jsonfiles) = true ∧
        ¬ ∃ i f, (fileList jsonfiles)[i]? = some f ∧
          FileFails env key (fileList jsonfiles) i f) := by
  have hany : ((env.reached (fileList jsonfiles)).any
        (fun p => (step env key p.1 p.2 (fun _ => none)).failedAFile) = true) ↔
      ∃ i f, (fileList jsonfiles)[i]? = some f ∧
        FileFails env key (fileList jsonfiles) i f := by
    rw [any_reached_iff]
    simp only [fileFails_iff]
  rw [runBatch_exitCode, ← hany]
  by_cases hl : env.loadsReturn 0 (fileList jsonfiles) = true
  · by_cases hf : (env.reached (fileList jsonfiles)).any
        (fun p => (step env key p.1 p.2 (fun _ => none)).failedAFile) = true
    · simp [hl, hf]
    · simp [hl, hf]
  · simp [hl]

/-- The calls of `loadFileToString` in every run: one for each entry `main` reaches, in
order; for all the entries when no load throws. -/
theorem loads_are_the_reached_entries (env : Env) (key : String) (disk : Disk)
    (jsonfiles : Option (List String)) :
    (runBatch env key disk jsonfiles).trace.filterMap Event.loadOf =
      (env.reached (fileList jsonfiles)).map Prod.snd ∧
    (env.loadsReturn 0 (fileList jsonfiles) = true →
      (runBatch env key disk jsonfiles).trace.filterMap Event.loadOf = fileList jsonfiles) := by
  have h1 : (runBatch env key disk jsonfiles).trace.filterMap Event.loadOf =
      (env.reached (fileList jsonfiles)).map Prod.snd := by
    rw [runBatch_trace, List.filterMap_flatMap]
    simp only [step_loads]
    induction env.reached (fileList jsonfiles) with
    | nil => rfl
    | cons p l ih => simp [List.flatMap_cons, ih]
  refine ⟨h1, fun hall => ?_⟩
  rw [h1]
  have hfilter : env.reached (fileList jsonfiles) = (fileList jsonfiles).enumFrom 0 := by
    unfold Env.reached
    rw [List.filter_eq_self]
    intro p hp
    have hlt := List.fst_lt_add_of_mem_enumFrom hp
    have hfull : env.reaches (fileList jsonfiles) (fileList jsonfiles).length = true := by
      unfold Env.reaches
      rw [List.take_length]
      exact hall
    exact reaches_mono env _ _ p.1 (by omega) hfull
  rw [hfilter]
  simp [List.enumFrom_map_snd]

theorem load_stops (m : Nat) (p : String) (r : ReadFile) (h : r.Stops) :
    ∃ diag, loadFileToString m p r = Except.ok ("", diag) := by
  unfold loadFileToString
  cases ho : r.fopenErrno with
  | some e => exact ⟨_, rfl⟩
  | none =>
    by_cases h1 : r.fseekEnd < 0
    · exact ⟨["fseek[SEEK_END] failed"], by simp [h1]⟩
    · by_cases h2 : r.ftell ≤ 0
      · exact ⟨["std::ftell returned size: " ++ toString r.ftell], by simp [h1, h2]⟩
      · by_cases h3 : r.fseekSet < 0
        · exact ⟨["fseek[SEEK_SET] failed"], by simp [h1, h2, h3]⟩
        · rcases h with h | h | h | h
          · exact absurd ho h
          · exact absurd h h1
          · exact absurd h h2
          · exact absurd h h3

/-- The function `loadFileToString`, case by case: the empty string when the load stops
early; otherwise an exception when the reported size is above `max_size` or the allocation
fails, and else the bytes `fread` stored, at most as many as the reported size. -/
theorem loadFileToString_cases (m : Nat) (p : String) (r : ReadFile) :
    (r.Stops → ∃ diag, loadFileToString m p r = Except.ok ("", diag)) ∧
    (¬ r.Stops → m < r.ftell.toNat →
      loadFileToString m p r = Except.error Thrown.length_error) ∧
    (¬ r.Stops → r.ftell.toNat ≤ m → r.badAlloc = true →
      loadFileToString m p r = Except.error Thrown.bad_alloc) ∧
    (¬ r.Stops → r.ftell.toNat ≤ m → r.badAlloc = false →
      loadFileToString m p r = Except.ok (freadBytes r r.ftell.toNat, []) ∧
      ((freadBytes r r.ftell.toNat).length : Int) ≤ r.ftell) := by
  refine ⟨load_stops m p r, ?_, ?_, ?_⟩
  · intro h hm
    unfold ReadFile.Stops at h
    push_neg at h
    obtain ⟨ho, h1, h2, h3⟩ := h
    unfold loadFileToString
    rw [ho]
    simp [not_lt.mpr h1, not_le.mpr h2, not_lt.mpr h3, hm]
  · intro h hm hb
    unfold ReadFile.Stops at h
    push_neg at h
    obtain ⟨ho, h1, h2, h3⟩ := h
    unfold loadFileToString
    rw [ho]
    simp [not_lt.mpr h1, not_le.mpr h2, not_lt.mpr h3, not_lt.mpr hm, hb]
  · intro h hm hb
    unfold ReadFile.Stops at h
    push_neg at h
    obtain ⟨ho, h1, h2, h3⟩ := h
    constructor
    · unfold loadFileToString
      rw [ho]
      simp [not_lt.mpr h1, not_le.mpr h2, not_lt.mpr h3, not_lt.mpr hm, hb]
    · have hlen : (freadBytes r r.ftell.toNat).length ≤ r.ftell.toNat :=
        List.length_take_le _ _
      have := Int.toNat_of_nonneg (le_of_lt h2)
      omega

/-- A zero-length file that `main` reaches is a failed file, and it is neither passed to
`signJson` nor written. -/
theorem zero_length_file_is_a_failed_file (env : Env) (key : String) (files : List String)
    (i : Nat) (f : String) (hr : env.reaches files i = true)
    (hz : (env.readFile i f).ZeroLength) :
    FileFails env key files i f ∧ env.signed key files i f = none := by
  obtain ⟨diag, hload⟩ := load_stops env.max_size f (env.readFile i f)
    (Or.inr (Or.inr (Or.inl (le_of_eq hz.2.2))))
  have hloaded : env.loaded files i f = some "" := by
    unfold Env.loaded Env.load
    rw [if_pos hr, hload]
  refine ⟨⟨"", hloaded, Or.inl rfl⟩, ?_⟩
  unfold Env.signed
  rw [hloaded]
  rfl

/-! ## The example runs -/

theorem exampleRun :
    (runBatch exampleEnv "K" noFiles (some exampleFiles)).exitCode = some 1 ∧
    (runBatch exampleEnv "K" noFiles (some exampleFiles)).trace =
      [Event.load "a.json", Event.sign "\x7b\x7d" "K", Event.save "\x7b\x7dK" "a.json",
       Event.cout "Signed file: a.json",
       Event.load "empty.json", Event.cerr "std::ftell returned size: 0",
       Event.cerr "File is empty / does not exist / could not be loaded: empty.json",
       Event.load "missing.json", Event.cerr "Failed to open file (2): missing.json",
       Event.cerr "File is empty / does not exist / could not be loaded: missing.json",
       Event.load "full.json", Event.sign "[]" "K", Event.save "[]K" "full.json",
       Event.cerr "Failed to save signed file: full.json"] ∧
    (runBatch exampleEnv "K" noFiles (some exampleFiles)).disk "a.json" = some "\x7b\x7dK" ∧
    (runBatch exampleEnv "K" noFiles (some exampleFiles)).disk "full.json" = some "[" ∧
    (runBatch exampleEnv "K" noFiles (some exampleFiles)).disk "empty.json" = none :=
  ⟨rfl, rfl, rfl, rfl, rfl⟩

theorem exampleRun_bad_key :
    (runBatch exampleEnv "" noFiles (some ["a.json"])).exitCode = some 1 ∧
    (runBatch exampleEnv "" noFiles (some ["a.json"])).trace =
      [Event.load "a.json", Event.sign "\x7b\x7d" "",
       Event.cerr "Failed to sign file \"a.json\" with error: bad key"] :=
  ⟨rfl, rfl⟩

/-- C10, at a directory.  The directory `adir` opens, both seeks succeed and `ftell` reports
`LONG_MAX`, a positive size: the load does not stop early, and `loadFileToString` does not
return the bytes read; `result.resize(size)` throws `std::length_error`. -/
theorem loadFileToString_throws_for_a_directory :
    ¬ (exampleEnv.readFile 0 "adir").Stops ∧
    loadFileToString exampleEnv.max_size "adir" (exampleEnv.readFile 0 "adir") =
      Except.error Thrown.length_error := by
  refine ⟨?_, rfl⟩
  rintro (h | h | h | h)
  · exact h rfl
  · exact absurd h (by decide)
  · exact absurd h (by decide)
  · exact absurd h (by decide)

/-- C1, at a directory.  With the file list `adir`, or `missing.json adir`, `main` returns
neither 1 nor 0: the exception of the load of `adir` leaves `main`, although in the second
run a file has failed before. -/
theorem main_returns_nothing_for_a_directory :
    (runBatch exampleEnv "K" noFiles (some ["adir"])).exitCode = none ∧
    (runBatch exampleEnv "K" noFiles (some ["missing.json", "adir"])).exitCode = none ∧
    FileFails exampleEnv "K" ["missing.json", "adir"] 0 "missing.json" :=
  ⟨rfl, rfl, "", rfl, Or.inl rfl⟩

/-- C2, at a directory.  With the file list `adir a.json` the batch ends at `adir`: the
file `a.json` is never loaded, although alone it is loaded, signed and saved. -/
theorem batch_aborts_at_a_directory :
    (runBatch exampleEnv "K" noFiles (some directoryFirst)).trace =
      [Event.load "adir", Event.terminate] ∧
    (runBatch exampleEnv "K" noFiles (some directoryFirst)).trace.filterMap Event.loadOf ≠
      directoryFirst ∧
    (runBatch exampleEnv "K" noFiles (some ["a.json"])).trace =
      [Event.load "a.json", Event.sign "\x7b\x7d" "K", Event.save "\x7b\x7dK" "a.json",
       Event.cout "Signed file: a.json"] := by
  refine ⟨rfl, ?_, rfl⟩
  have h : (runBatch exampleEnv "K" noFiles (some directoryFirst)).trace.filterMap
      Event.loadOf = ["adir"] := rfl
  rw [h]
  decide

theorem saves_are_exactly_the_signed_results_witness :
    ((saveStringToFile "\x7b\x7dK" "a.json" (exampleEnv.writeFile 0 "a.json" "\x7b\x7dK")
        noFiles).1 = true ↔
      (exampleEnv.writeFile 0 "a.json" "\x7b\x7dK").fopenOk = true ∧
      (exampleEnv.writeFile 0 "a.json" "\x7b\x7dK").fwrite = ("\x7b\x7dK" : String).length ∧
      (exampleEnv.writeFile 0 "a.json" "\x7b\x7dK").fclose = 0) ∧
    (saveStringToFile "\x7b\x7dK" "a.json" (exampleEnv.writeFile 0 "a.json" "\x7b\x7dK") noFiles).2
      "b.json" = noFiles "b.json" ∧
    (runBatch exampleEnv "K" noFiles (some ["a.json"])).disk "a.json" = some "\x7b\x7dK" ∧
    (runBatch exampleEnv "K" noFiles (some ["a.json", "empty.json"])).disk "empty.json" =
      (runBatch exampleEnv "K" noFiles (some ["a.json"])).disk "empty.json" :=
  have h := saves_are_exactly_the_signed_results exampleEnv "K" noFiles (some exampleFiles)
  ⟨(h.2.1 "\x7b\x7dK" "a.json" (exampleEnv.writeFile 0 "a.json" "\x7b\x7dK") noFiles).1,
    (h.2.1 "\x7b\x7dK" "a.json" (exampleEnv.writeFile 0 "a.json" "\x7b\x7dK") noFiles).2.2 "b.json"
      (by decide),
    congrFun (h.2.2.1 [] ["empty.json", "missing.json", "full.json"] "a.json" rfl).2 "a.json",
    congrFun (h.2.2.1 ["a.json"] ["missing.json", "full.json"] "empty.json" rfl).2
      "empty.json"⟩

theorem failures_reported_successes_announced_witness :
    (fileList (some exampleFiles))[3]? = some "full.json" ∧
    FileFails exampleEnv "K" (fileList (some exampleFiles)) 3 "full.json" ∧
    ∃ before line after,
      (runBatch exampleEnv "K" noFiles (some exampleFiles)).trace =
        before ++ Event.cerr line :: after ∧
      before.filterMap Event.loadOf = (fileList (some exampleFiles)).take (3 + 1) ∧
      Names line "full.json" :=
  have hfail : FileFails exampleEnv "K" (fileList (some exampleFiles)) 3 "full.json" :=
    ⟨"[]", rfl, Or.inr (Or.inr ⟨"[]K", rfl, rfl⟩)⟩
  ⟨rfl, hfail,
    (failures_reported_successes_announced exampleEnv "K" noFiles (some exampleFiles)).1 3
      "full.json" rfl hfail⟩

end SignJson

namespace Core

/-! ## Numbers: one canonical form per value -/

theorem stripZeros_spec : ∀ (fuel : Nat) (m e : Int), m ≠ 0 → m.natAbs ≤ fuel →
    ∃ k : Nat, (stripZeros fuel m e).2 = e + k ∧ m = (stripZeros fuel m e).1 * 10 ^ k ∧
      (stripZeros fuel m e).1 % 10 ≠ 0 := by
  intro fuel
  induction fuel with
  | zero =>
    intro m e hm hle
    exact absurd (Int.natAbs_eq_zero.mp (Nat.le_zero.mp hle)) hm
  | succ fuel ih =>
    intro m e hm hle
    unfold stripZeros
    by_cases h10 : m % 10 = 0
    · rw [if_pos h10]
      have hdiv : m = 10 * (m / 10) := by omega
      have hq : m / 10 ≠ 0 := by omega
      have hlt : (m / 10).natAbs ≤ fuel := by omega
      obtain ⟨k, hk1, hk2, hk3⟩ := ih (m / 10) (e + 1) hq hlt
      refine ⟨k + 1, ?_, ?_, hk3⟩
      · rw [hk1]; push_cast; ring
      · calc m = 10 * (m / 10) := hdiv
          _ = 10 * ((stripZeros fuel (m / 10) (e + 1)).1 * 10 ^ k) := by rw [← hk2]
          _ = (stripZeros fuel (m / 10) (e + 1)).1 * 10 ^ (k + 1) := by ring
    · rw [if_neg h10]
      exact ⟨0, by simp, by simp, h10⟩

theorem pow10_le_unique (a b : Int) (i j : Nat) (hij : i ≤ j) (ha : a % 10 ≠ 0)
    (h : a * 10 ^ i = b * 10 ^ j) : i = j ∧ a = b := by
  obtain ⟨d, rfl⟩ := Nat.exists_eq_add_of_le hij
  have h10 : (10 : Int) ^ i ≠ 0 := pow_ne_zero _ (by norm_num)
  have hab : a = b * 10 ^ d := by
    have : a * 10 ^ i = (b * 10 ^ d) * 10 ^ i := by rw [h]; ring
    exact mul_right_cancel₀ h10 this
  cases d with
  | zero => exact ⟨rfl, by simpa using hab⟩
  | succ d =>
    exfalso
    apply ha
    have hmul : a = 10 * (b * 10 ^ d) := by rw [hab, pow_succ]; ring
    generalize b * 10 ^ d = c at hmul
    omega

theorem pow10_unique (a b : Int) (i j : Nat) (ha : a % 10 ≠ 0) (hb : b % 10 ≠ 0)
    (h : a * 10 ^ i = b * 10 ^ j) : i = j ∧ a = b := by
  rcases Nat.le_total i j with hij | hji
  · exact pow10_le_unique a b i j hij ha h
  · obtain ⟨h1, h2⟩ := pow10_le_unique b a j i hji hb h.symm
    exact ⟨h1.symm, h2.symm⟩

theorem normalize_eq_of_sameValue (m₁ e₁ m₂ e₂ : Int)
    (h : m₁ * 10 ^ (e₁ - min e₁ e₂).toNat = m₂ * 10 ^ (e₂ - min e₁ e₂).toNat) :
    normalize m₁ e₁ = normalize m₂ e₂ := by
  have h10 : ∀ n : Nat, (10 : Int) ^ n ≠ 0 := fun n => pow_ne_zero _ (by norm_num)
  unfold normalize
  by_cases hm₁ : m₁ = 0
  · have hm₂ : m₂ = 0 := by
      rw [hm₁, zero_mul] at h
      rcases mul_eq_zero.mp h.symm with h0 | h0
      · exact h0
      · exact absurd h0 (h10 _)
    rw [if_pos hm₁, if_pos hm₂]
  · have hm₂ : m₂ ≠ 0 := by
      intro h0
      rw [h0, zero_mul] at h
      rcases mul_eq_zero.mp h with h1 | h1
      · exact hm₁ h1
      · exact absurd h1 (h10 _)
    rw [if_neg hm₁, if_neg hm₂]
    obtain ⟨k₁, hk₁, hv₁, hn₁⟩ := stripZeros_spec m₁.natAbs m₁ e₁ hm₁ le_rfl
    obtain ⟨k₂, hk₂, hv₂, hn₂⟩ := stripZeros_spec m₂.natAbs m₂ e₂ hm₂ le_rfl
    generalize stripZeros m₁.natAbs m₁ e₁ = r₁ at hk₁ hv₁ hn₁ ⊢
    generalize stripZeros m₂.natAbs m₂ e₂ = r₂ at hk₂ hv₂ hn₂ ⊢
    obtain ⟨a₁, f₁⟩ := r₁
    obtain ⟨a₂, f₂⟩ := r₂
    simp only at hk₁ hv₁ hn₁ hk₂ hv₂ hn₂
    have hp₁ : e₁ = min e₁ e₂ + ((e₁ - min e₁ e₂).toNat : Int) := by omega
    have hp₂ : e₂ = min e₁ e₂ + ((e₂ - min e₁ e₂).toNat : Int) := by omega
    generalize (e₁ - min e₁ e₂).toNat = p₁ at h hp₁
    generalize (e₂ - min e₁ e₂).toNat = p₂ at h hp₂
    have hkey : a₁ * 10 ^ (k₁ + p₁) = a₂ * 10 ^ (k₂ + p₂) := by
      rw [pow_add, pow_add, ← mul_assoc, ← mul_assoc, ← hv₁, ← hv₂]
      exact h
    obtain ⟨hexp, hman⟩ := pow10_unique a₁ a₂ _ _ hn₁ hn₂ hkey
    have : f₁ = f₂ := by omega
    rw [hman, this]

theorem encodeNumber_eq_of_sameValue {Doc : Type} (S : Scheme Doc) (a b : Number)
    (h : a.SameValue b) : encodeNumber S a = encodeNumber S b := by
  cases a <;> cases b <;> simp only [Number.SameValue] at h <;>
    first
    | rfl
    | (simp only [encodeNumber]; rw [normalize_eq_of_sameValue _ _ _ _ h])

/-! ## Keys: a total order, so one sorted arrangement per mapping -/

theorem bytesLe_total : ∀ a b : List Nat, bytesLe a b = true ∨ bytesLe b a = true
  | [], _ => Or.inl rfl
  | _ :: _, [] => Or.inr rfl
  | x :: xs, y :: ys => by
    simp only [bytesLe, Bool.or_eq_true, Bool.and_eq_true, decide_eq_true_eq, beq_iff_eq]
    rcases Nat.lt_trichotomy x y with h | h | h
    · exact Or.inl (Or.inl h)
    · rcases bytesLe_total xs ys with ht | ht
      · exact Or.inl (Or.inr ⟨h, ht⟩)
      · exact Or.inr (Or.inr ⟨h.symm, ht⟩)
    · exact Or.inr (Or.inl h)

theorem bytesLe_trans : ∀ a b c : List Nat, bytesLe a b = true → bytesLe b c = true →
    bytesLe a c = true
  | [], _, _, _, _ => rfl
  | _ :: _, [], _, h, _ => by simp [bytesLe] at h
  | _ :: _, _ :: _, [], _, h => by simp [bytesLe] at h
  | x :: xs, y :: ys, z :: zs, h₁, h₂ => by
    simp only [bytesLe, Bool.or_eq_true, Bool.and_eq_true, decide_eq_true_eq,
      beq_iff_eq] at h₁ h₂ ⊢
    rcases h₁ with h₁ | ⟨h₁, t₁⟩
    · rcases h₂ with h₂ | ⟨h₂, _⟩
      · exact Or.inl (by omega)
      · exact Or.inl (by omega)
    · rcases h₂ with h₂ | ⟨h₂, t₂⟩
      · exact Or.inl (by omega)
      · exact Or.inr ⟨by omega, bytesLe_trans xs ys zs t₁ t₂⟩

theorem bytesLe_antisymm : ∀ a b : List Nat, bytesLe a b = true → bytesLe b a = true → a = b
  | [], [], _, _ => rfl
  | [], _ :: _, _, h => by simp [bytesLe] at h
  | _ :: _, [], h, _ => by simp [bytesLe] at h
  | x :: xs, y :: ys, h₁, h₂ => by
    simp only [bytesLe, Bool.or_eq_true, Bool.and_eq_true, decide_eq_true_eq,
      beq_iff_eq] at h₁ h₂
    rcases h₁ with h₁ | ⟨h₁, t₁⟩
    · rcases h₂ with h₂ | ⟨h₂, _⟩
      · omega
      · omega
    · rcases h₂ with h₂ | ⟨_, t₂⟩
      · omega
      · rw [h₁, bytesLe_antisymm xs ys t₁ t₂]

theorem char_toNat_injective (c d : Char) (h : c.toNat = d.toNat) : c = d := by
  apply Char.ext
  cases c with | mk cv cp =>
  cases d with | mk dv dp =>
  simp only [Char.toNat] at h
  cases cv with | mk cf =>
  cases dv with | mk df =>
  simp only [UInt32.toNat] at h
  congr
  exact BitVec.eq_of_toNat_eq h

theorem keyLe_total (a b : String) : keyLe a b = true ∨ keyLe b a = true :=
  bytesLe_total _ _

theorem keyLe_trans (a b c : String) (h₁ : keyLe a b = true) (h₂ : keyLe b c = true) :
    keyLe a c = true :=
  bytesLe_trans _ _ _ h₁ h₂

theorem keyLe_antisymm (a b : String) (h₁ : keyLe a b = true) (h₂ : keyLe b a = true) :
    a = b := by
  have h := bytesLe_antisymm _ _ h₁ h₂
  have hinj : Function.Injective Char.toNat := fun c d hcd => char_toNat_injective c d hcd
  exact String.ext (List.map_injective_iff.mpr hinj h)

theorem entryLe_isTotal : IsTotal (String × String) EntryLe :=
  ⟨fun a b => keyLe_total a.1 b.1⟩

theorem entryLe_isTrans : IsTrans (String × String) EntryLe :=
  ⟨fun a b c => keyLe_trans a.1 b.1 c.1⟩

theorem entryLt_isAntisymm : IsAntisymm (String × String) EntryLt :=
  ⟨fun a b hab hba => absurd (keyLe_antisymm a.1 b.1 hab.1 hba.1) hab.2⟩

theorem sortEntries_sorted (l : List (String × String)) :
    List.Sorted EntryLe (sortEntries l) :=
  @List.sorted_insertionSort _ EntryLe _ entryLe_isTotal entryLe_isTrans l

theorem sortEntries_perm (l : List (String × String)) : (sortEntries l).Perm l :=
  List.perm_insertionSort EntryLe l

theorem sortEntries_strict (l : List (String × String)) (hnodup : (l.map Prod.fst).Nodup) :
    List.Sorted EntryLt (sortEntries l) := by
  have hs := sortEntries_sorted l
  have hn : ((sortEntries l).map Prod.fst).Nodup :=
    ((sortEntries_perm l).map Prod.fst).nodup_iff.mpr hnodup
  have hp : List.Pairwise (fun a b : String × String => a.1 ≠ b.1) (sortEntries l) :=
    List.pairwise_map.mp hn
  exact List.Pairwise.and hs hp

theorem sortEntries_eq_of_perm (l₁ l₂ : List (String × String)) (hperm : l₁.Perm l₂)
    (hnodup : (l₁.map Prod.fst).Nodup) : sortEntries l₁ = sortEntries l₂ := by
  have hnodup₂ : (l₂.map Prod.fst).Nodup := (hperm.map Prod.fst).nodup_iff.mp hnodup
  have hp : (sortEntries l₁).Perm (sortEntries l₂) :=
    (sortEntries_perm l₁).trans (hperm.trans (sortEntries_perm l₂).symm)
  exact @List.eq_of_perm_of_sorted _ EntryLt entryLt_isAntisymm _ _ hp
    (sortEntries_strict l₁ hnodup) (sortEntries_strict l₂ hnodup₂)

/-! ## The recursive definitions as maps over lists -/

theorem encodeEntries_eq_map {Doc : Type} (S : Scheme Doc)
    (es : List (String × StructuredValue)) :
    encodeEntries S es = es.map (fun p => (p.1, encode S p.2)) := by
  induction es with
  | nil => simp [encodeEntries]
  | cons p es ih => obtain ⟨k, v⟩ := p; simp [encodeEntries, ih]

theorem encodeItems_eq_map {Doc : Type} (S : Scheme Doc) (vs : List StructuredValue) :
    encodeItems S vs = vs.map (encode S) := by
  induction vs with
  | nil => simp [encodeItems]
  | cons v vs ih => simp [encodeItems, ih]

theorem representableEntries_eq_all (es : List (String × StructuredValue)) :
    representableEntries es = es.all (fun p => representable p.2) := by
  induction es with
  | nil => simp [representableEntries]
  | cons p es ih => obtain ⟨k, v⟩ := p; simp [representableEntries, ih]

theorem representableItems_eq_all (vs : List StructuredValue) :
    representableItems vs = vs.all representable := by
  induction vs with
  | nil => simp [representableItems]
  | cons v vs ih => simp [representableItems, ih]

theorem wellFormedEntries_eq_all (es : List (String × StructuredValue)) :
    wellFormedEntries es = es.all (fun p => wellFormed p.2) := by
  induction es with
  | nil => simp [wellFormedEntries]
  | cons p es ih => obtain ⟨k, v⟩ := p; simp [wellFormedEntries, ih]

theorem wellFormedItems_eq_all (vs : List StructuredValue) :
    wellFormedItems vs = vs.all wellFormed := by
  induction vs with
  | nil => simp [wellFormedItems]
  | cons v vs ih => simp [wellFormedItems, ih]

theorem wellFormed_mapping (es : List (String × StructuredValue)) :
    wellFormed (StructuredValue.mapping es) = true ↔
      (es.map Prod.fst).Nodup ∧ ∀ p ∈ es, wellFormed p.2 = true := by
  simp [wellFormed, wellFormedEntries_eq_all]

theorem wellFormed_sequence (vs : List StructuredValue) :
    wellFormed (StructuredValue.sequence vs) = true ↔ ∀ v ∈ vs, wellFormed v = true := by
  simp [wellFormed, wellFormedItems_eq_all]

theorem representable_mapping (es : List (String × StructuredValue)) :
    representable (StructuredValue.mapping es) = es.all (fun p => representable p.2) := by
  simp [representable, representableEntries_eq_all]

theorem representable_sequence (vs : List StructuredValue) :
    representable (StructuredValue.sequence vs) = vs.all representable := by
  simp [representable, representableItems_eq_all]

theorem encode_mapping {Doc : Type} (S : Scheme Doc) (es : List (String × StructuredValue)) :
    encode S (StructuredValue.mapping es) =
      "\x7b" ++ ",".intercalate
        ((sortEntries (es.map (fun p => (p.1, encode S p.2)))).map
          (fun p => S.stringText p.1 ++ ":" ++ p.2)) ++ "\x7d" := by
  rw [encode, encodeEntries_eq_map]

theorem encode_sequence {Doc : Type} (S : Scheme Doc) (vs : List StructuredValue) :
    encode S (StructuredValue.sequence vs) =
      "[" ++ ",".intercalate (vs.map (encode S)) ++ "]" := by
  rw [encode, encodeItems_eq_map]

/-! ## Canonicalization is stable -/

theorem all_eq_of_perm {α : Type} (p : α → Bool) {l₁ l₂ : List α} (h : l₁.Perm l₂) :
    l₁.all p = l₂.all p := by
  rw [Bool.eq_iff_iff]
  simp only [List.all_eq_true]
  exact ⟨fun hl x hx => hl x (h.mem_iff.mpr hx), fun hl x hx => hl x (h.mem_iff.mp hx)⟩

theorem sameContent_wellFormed {a b : StructuredValue} (h : SameContent a b) :
    wellFormed a = wellFormed b := by
  induction h with
  | refl v => rfl
  | symm _ ih => exact ih.symm
  | trans _ _ ih₁ ih₂ => exact ih₁.trans ih₂
  | spelling a b _ => rfl
  | keyOrder es₁ es₂ hp =>
    rw [Bool.eq_iff_iff, wellFormed_mapping, wellFormed_mapping]
    constructor
    · rintro ⟨h1, h2⟩
      exact ⟨(hp.map Prod.fst).nodup_iff.mp h1, fun p hp' => h2 p (hp.mem_iff.mpr hp')⟩
    · rintro ⟨h1, h2⟩
      exact ⟨(hp.map Prod.fst).nodup_iff.mpr h1, fun p hp' => h2 p (hp.mem_iff.mp hp')⟩
  | inMapping before after k _ ih =>
    rw [Bool.eq_iff_iff, wellFormed_mapping, wellFormed_mapping]
    simp only [List.map_append, List.map_cons, List.mem_append, List.mem_cons]
    constructor
    · rintro ⟨h1, h2⟩
      refine ⟨h1, ?_⟩
      rintro p (hp | hp | hp)
      · exact h2 p (Or.inl hp)
      · subst hp
        rw [← ih]
        exact h2 _ (Or.inr (Or.inl rfl))
      · exact h2 p (Or.inr (Or.inr hp))
    · rintro ⟨h1, h2⟩
      refine ⟨h1, ?_⟩
      rintro p (hp | hp | hp)
      · exact h2 p (Or.inl hp)
      · subst hp
        rw [ih]
        exact h2 _ (Or.inr (Or.inl rfl))
      · exact h2 p (Or.inr (Or.inr hp))
  | inSequence before after _ ih =>
    rw [Bool.eq_iff_iff, wellFormed_sequence, wellFormed_sequence]
    simp only [List.mem_append, List.mem_cons]
    constructor
    · rintro h2 p (hp | hp | hp)
      · exact h2 p (Or.inl hp)
      · subst hp
        rw [← ih]
        exact h2 _ (Or.inr (Or.inl rfl))
      · exact h2 p (Or.inr (Or.inr hp))
    · rintro h2 p (hp | hp | hp)
      · exact h2 p (Or.inl hp)
      · subst hp
        rw [ih]
        exact h2 _ (Or.inr (Or.inl rfl))
      · exact h2 p (Or.inr (Or.inr hp))

theorem sameContent_encode {Doc : Type} (S : Scheme Doc) {a b : StructuredValue}
    (h : SameContent a b) :
    wellFormed a = true → encode S a = encode S b ∧ representable a = representable b := by
  induction h with
  | refl v => exact fun _ => ⟨rfl, rfl⟩
  | symm hba ih =>
    intro hwf
    have := ih (by rw [sameContent_wellFormed hba]; exact hwf)
    exact ⟨this.1.symm, this.2.symm⟩
  | trans hab _ ih₁ ih₂ =>
    intro hwf
    have h₁ := ih₁ hwf
    have h₂ := ih₂ (by rw [← sameContent_wellFormed hab]; exact hwf)
    exact ⟨h₁.1.trans h₂.1, h₁.2.trans h₂.2⟩
  | spelling a b hv =>
    intro _
    refine ⟨?_, ?_⟩
    · simp only [encode]
      exact encodeNumber_eq_of_sameValue S a b hv
    · cases a <;> cases b <;> simp only [Number.SameValue] at hv <;> rfl
  | keyOrder es₁ es₂ hp =>
    intro hwf
    rw [wellFormed_mapping] at hwf
    refine ⟨?_, ?_⟩
    · rw [encode_mapping, encode_mapping]
      rw [sortEntries_eq_of_perm _ _ (hp.map _) (by simpa [Function.comp_def] using hwf.1)]
    · rw [representable_mapping, representable_mapping]
      exact all_eq_of_perm _ hp
  | @inMapping before after k v w _ ih =>
    intro hwf
    rw [wellFormed_mapping] at hwf
    have hv := ih (hwf.2 (k, v) (by simp))
    refine ⟨?_, ?_⟩
    · rw [encode_mapping, encode_mapping]
      simp only [List.map_append, List.map_cons, hv.1]
    · rw [representable_mapping, representable_mapping]
      simp only [List.all_append, List.all_cons, hv.2]
  | @inSequence before after v w _ ih =>
    intro hwf
    rw [wellFormed_sequence] at hwf
    have hv := ih (hwf v (by simp))
    refine ⟨?_, ?_⟩
    · rw [encode_sequence, encode_sequence]
      simp only [List.map_append, List.map_cons, hv.1]
    · rw [representable_sequence, representable_sequence]
      simp only [List.all_append, List.all_cons, hv.2]

theorem sameContent_removeReservedKey {Doc : Type} (S : Scheme Doc) {a b : StructuredValue}
    (h : SameContent a b) :
    SameContent (removeReservedKey S a) (removeReservedKey S b) := by
  induction h with
  | refl v => exact SameContent.refl _
  | symm _ ih => exact SameContent.symm ih
  | trans _ _ ih₁ ih₂ => exact SameContent.trans ih₁ ih₂
  | spelling a b hv => exact SameContent.spelling a b hv
  | keyOrder es₁ es₂ hp => exact SameContent.keyOrder _ _ (hp.filter _)
  | inMapping before after k hvw _ =>
    simp only [removeReservedKey, List.filter_append, List.filter_cons]
    by_cases hk : (!(k == S.reservedKey)) = true
    · simp only [hk, if_true]
      exact SameContent.inMapping _ _ k hvw
    · simp only [hk]
      exact SameContent.refl _
  | inSequence before after hvw _ => exact SameContent.inSequence before after hvw

theorem wellFormed_removeReservedKey {Doc : Type} (S : Scheme Doc) (a : StructuredValue)
    (h : wellFormed a = true) : wellFormed (removeReservedKey S a) = true := by
  cases a with
  | mapping es =>
    simp only [removeReservedKey]
    rw [wellFormed_mapping] at h ⊢
    refine ⟨?_, fun p hp => h.2 p (List.mem_of_mem_filter hp)⟩
    exact h.1.sublist ((List.filter_sublist _).map Prod.fst)
  | null => exact h
  | boolean _ => exact h
  | number _ => exact h
  | string _ => exact h
  | sequence _ => exact h

/-- C8. Canonicalization stability: two documents that are structurally equal but differ
in key order or in the spelling of numbers (whitespace is not part of a parsed value)
have the same canonical payload, or are both rejected with the same error; the mappings
of the document are mappings, that is, no key occurs twice in one. -/
theorem canonicalize_stable {Doc : Type} (S : Scheme Doc) (D₁ D₂ : StructuredValue)
    (hwf : wellFormed D₁ = true) (hsame : SameContent D₁ D₂) :
    canonicalize S D₁ = canonicalize S D₂ := by
  have h := sameContent_encode S (sameContent_removeReservedKey S hsame)
    (wellFormed_removeReservedKey S D₁ hwf)
  unfold canonicalize
  simp only [h.1, h.2]

theorem canonicalize_stable_witness :
    wellFormed exampleDocument = true ∧ SameContent exampleDocument exampleReordered ∧
    canonicalize exampleScheme exampleDocument = canonicalize exampleScheme exampleReordered ∧
    canonicalize exampleScheme exampleReordered = Except.ok "\x7b\"a\":1e0,\"b\":\"x\"\x7d" :=
  have hsame : SameContent exampleDocument exampleReordered :=
    SameContent.trans
      (SameContent.keyOrder _ _ (List.Perm.swap _ _ []))
      (SameContent.inMapping [("b", StructuredValue.string "x")] [] "a"
        (SameContent.spelling (Number.decimal 1 0) (Number.decimal 10 (-1)) (by decide)))
  ⟨by decide, hsame, canonicalize_stable exampleScheme _ _ (by decide) hsame, rfl⟩

/-! ## Signing and verifying -/

/-- C7. No double-signing: `sign` on a document that already carries the reserved
signature key fails with `AlreadySignedError`, whatever the key; it returns no document,
and `embed` refuses every block for such a value, so the existing signature is never
overwritten. -/
theorem sign_rejects_signed_document {Doc : Type} (S : Scheme Doc) (D : Doc) (K : String)
    (d : StructuredValue) (hparse : S.parse D = some d)
    (hsigned : carriesReservedKey S d = true) :
    sign S D K = Except.error CoreError.alreadySignedError ∧
    (∀ block, embed S d block = Except.error CoreError.alreadySignedError) := by
  constructor
  · unfold sign
    rw [hparse]
    simp only [hsigned, if_true]
  · intro block
    cases d with
    | mapping es => simp only [embed, hsigned, if_true]
    | null => simp [carriesReservedKey] at hsigned
    | boolean _ => simp [carriesReservedKey] at hsigned
    | number _ => simp [carriesReservedKey] at hsigned
    | string _ => simp [carriesReservedKey] at hsigned
    | sequence _ => simp [carriesReservedKey] at hsigned

theorem sign_rejects_signed_document_witness :
    exampleScheme.parse exampleSigned = some exampleSigned ∧
    carriesReservedKey exampleScheme exampleSigned = true ∧
    sign exampleScheme exampleSigned "secret" = Except.error CoreError.alreadySignedError ∧
    (∀ block, embed exampleScheme exampleSigned block =
      Except.error CoreError.alreadySignedError) :=
  ⟨rfl, by decide, sign_rejects_signed_document exampleScheme exampleSigned "secret"
    exampleSigned rfl (by decide)⟩

/-! ## The scenario of the specification -/

theorem exampleScenario :
    verify exampleScheme
        (StructuredValue.mapping
          [("a", StructuredValue.number (Number.decimal 1 0)),
           ("b", StructuredValue.string "x"),
           ("signature", blockValue
              { version := 1, algorithm := "example", keyId := none,
                signature := "secret:\x7b\"a\":1e0,\"b\":\"x\"\x7d" })]) "wrong" =
      Except.error CoreError.signatureMismatchError ∧
    verify exampleScheme
        (StructuredValue.mapping
          [("b", StructuredValue.string "x"),
           ("a", StructuredValue.number (Number.decimal 1 0)),
           ("signature", blockValue
              { version := 1, algorithm := "example", keyId := none,
                signature := "secret:\x7b\"a\":1e0,\"b\":\"x\"\x7d" })]) "secret" =
      Except.ok (StructuredValue.mapping
          [("b", StructuredValue.string "x"),
           ("a", StructuredValue.number (Number.decimal 1 0))]) :=
  ⟨rfl, rfl⟩

end Core
